import Mathlib

/-! # Adafruit_SharpMem: pixel buffer, orientation transform and frame encoder

A shallow embedding of `Adafruit_SharpMem.cpp`.  The method `refresh` is the
staged branch, which the source builds (`SPI_BUFFER_ENABLED` is defined); the
streaming branch of the same method is embedded as `refreshStreaming`.

Conventions of the embedding.

* A byte is a `Nat`; every store into a byte buffer reduces modulo 256.
* A heap block is a `List Nat`; a pointer is an `Option (List Nat)`, `none`
  being the null pointer.  Every access is bounds checked: an access outside
  the block (undefined behaviour in C++) makes the operation return `none`.
* `int` is 32 bits wide on the target (Nano 33 BLE), and `WIDTH`, `HEIGHT`,
  `_width`, `_height` are `int16_t`, so the index arithmetic of the source does
  not overflow; it is carried out in `Nat`.  The one narrowing cast of the
  source, `(uint16_t)` on the transfer length, is kept as `% 65536`.
* `SPI.transfer(buf, count)` of the Arduino core is a duplex transfer: it clocks
  out `count` bytes of `buf` and stores the bytes clocked in over them.  The
  bytes clocked in are an input of the model (`miso`).
-/

namespace Adafruit_SharpMem

set_option maxRecDepth 8192

/-! ## Constants and tables -/

def SHARPMEM_BIT_WRITECMD : Nat := 0x80
def SHARPMEM_BIT_VCOM : Nat := 0x40
def SHARPMEM_BIT_CLEAR : Nat := 0x20

def lineNumberLookup : List Nat :=
  [ 0, 128, 64, 192, 32, 160, 96, 224, 16, 144, 80, 208, 48, 176, 112,
    240, 8, 136, 72, 200, 40, 168, 104, 232, 24, 152, 88, 216, 56, 184,
    120, 248, 4, 132, 68, 196, 36, 164, 100, 228, 20, 148, 84, 212, 52,
    180, 116, 244, 12, 140, 76, 204, 44, 172, 108, 236, 28, 156, 92, 220,
    60, 188, 124, 252, 2, 130, 66, 194, 34, 162, 98, 226, 18, 146, 82,
    210, 50, 178, 114, 242, 10, 138, 74, 202, 42, 170, 106, 234, 26, 154,
    90, 218, 58, 186, 122, 250, 6, 134, 70, 198, 38, 166, 102, 230, 22,
    150, 86, 214, 54, 182, 118, 246, 14, 142, 78, 206, 46, 174, 110, 238,
    30, 158, 94, 222, 62, 190, 126, 254, 1, 129, 65, 193, 33, 161, 97,
    225, 17, 145, 81, 209, 49, 177, 113, 241, 9, 137, 73, 201, 41, 169,
    105, 233, 25, 153, 89, 217, 57, 185, 121, 249, 5, 133, 69, 197, 37,
    165, 101, 229, 21, 149, 85, 213, 53, 181, 117, 245, 13, 141, 77, 205,
    45, 173, 109, 237, 29, 157, 93, 221, 61, 189, 125, 253, 3, 131, 67,
    195, 35, 163, 99, 227, 19, 147, 83, 211, 51, 179, 115, 243, 11, 139,
    75, 203, 43, 171, 107, 235, 27, 155, 91, 219, 59, 187, 123, 251, 7,
    135, 71, 199, 39, 167, 103, 231, 23, 151, 87, 215, 55, 183, 119, 247,
    15, 143, 79, 207, 47, 175, 111, 239, 31, 159, 95, 223, 63, 191, 127,
    255 ]

/-- The table `set[]` of the source: `set[n] = 1 << n`. -/
def set : List Nat := [1, 2, 4, 8, 16, 32, 64, 128]

/-- The table `clr[]` of the source: `clr[n] = (uint8_t)~(1 << n)`. -/
def clr : List Nat := [254, 253, 251, 247, 239, 223, 191, 127]

/-! ## State -/

/-- The display object together with the file-scope buffers of the source. -/
structure Display where
  /-- Physical width (`Adafruit_GFX::WIDTH`). -/
  WIDTH : Nat
  /-- Physical height (`Adafruit_GFX::HEIGHT`). -/
  HEIGHT : Nat
  /-- Current rotation (`Adafruit_GFX::rotation`). -/
  rotation : Nat
  /-- The polarity byte. -/
  _sharpmem_vcom : Nat
  /-- The pixel buffer. -/
  sharpmem_buffer : Option (List Nat)
  /-- The scratch buffer of the encoded frame. -/
  sharpmem_spi_buffer : Option (List Nat)
  deriving DecidableEq

/-- Modelled from the spec: `Adafruit_GFX` (not part of the source) keeps the
logical width `_width`, which is the physical width, swapped with the height
for rotations 1 and 3. -/
def _width (d : Display) : Nat :=
  match d.rotation with
  | 1 => d.HEIGHT
  | 3 => d.HEIGHT
  | _ => d.WIDTH

/-- Modelled from the spec: `Adafruit_GFX` (not part of the source) keeps the
logical height `_height`, which is the physical height, swapped with the width
for rotations 1 and 3. -/
def _height (d : Display) : Nat :=
  match d.rotation with
  | 1 => d.WIDTH
  | 3 => d.WIDTH
  | _ => d.HEIGHT

/-- Modelled from the spec: `Adafruit_GFX::setRotation` (not part of the
source) stores a rotation in 0..3. -/
def setRotation (d : Display) (r : Nat) : Display :=
  { d with rotation := r % 4 }

/-- The constructor: `Adafruit_GFX(width, height)` with rotation 0; the
file-scope pointers start out null. -/
def construct (width height : Nat) : Display :=
  { WIDTH := width, HEIGHT := height, rotation := 0, _sharpmem_vcom := 0,
    sharpmem_buffer := none, sharpmem_spi_buffer := none }

/-! ## Memory primitives -/

/-- The library call `malloc(n)`: the environment either refuses (`none`) or
hands out a block of `n` bytes of arbitrary content `g`. -/
def malloc (n : Nat) (r : Option (Nat → Nat)) : Option (List Nat) :=
  r.map (fun g => (List.range n).map (fun i => g i % 256))

/-- The store `buf[i] = v` into a byte buffer. -/
def writeByte (buf : List Nat) (i v : Nat) : Option (List Nat) :=
  if i < buf.length then some (buf.set i (v % 256)) else none

/-- The library call `memcpy(dst + doff, src + soff, n)`. -/
def memcpy (dst : List Nat) (doff : Nat) (src : List Nat) (soff n : Nat) :
    Option (List Nat) :=
  if doff + n ≤ dst.length ∧ soff + n ≤ src.length then
    some (dst.take doff ++ (src.drop soff).take n ++ dst.drop (doff + n))
  else none

/-- The library call `memset(buf, v, n)`. -/
def memset (buf : List Nat) (v n : Nat) : Option (List Nat) :=
  if n ≤ buf.length then some (List.replicate n (v % 256) ++ buf.drop n) else none

/-! ## begin -/

/-- The size `begin` asks for the pixel buffer: `(WIDTH * HEIGHT) / 8`. -/
def pixelBufferSize (d : Display) : Nat := (d.WIDTH * d.HEIGHT) / 8

/-- The size `begin` asks for the scratch buffer:
`((WIDTH * HEIGHT) / 8) + 3 + 2 * HEIGHT + 240`. -/
def spiBufferSize (d : Display) : Nat := ((d.WIDTH * d.HEIGHT) / 8) + 3 + 2 * d.HEIGHT + 240

/-- The method `begin`; `m1` and `m2` are what the two `malloc` calls meet.
Returns the boolean of the source and the state left behind. -/
def begin (d : Display) (m1 m2 : Option (Nat → Nat)) : Bool × Display :=
  let d1 := { d with _sharpmem_vcom := SHARPMEM_BIT_VCOM }
  let d2 := { d1 with sharpmem_buffer := malloc (pixelBufferSize d1) m1 }
  let d3 := { d2 with sharpmem_spi_buffer := malloc (spiBufferSize d2) m2 }
  match d3.sharpmem_buffer with
  | none => (false, d3)
  | some _ => (true, setRotation d3 0)

/-! ## Pixel access -/

/-- The `switch (rotation)` of `drawPixel` and `getPixel` (the same in both):
logical to physical coordinate. -/
def rotate (d : Display) (x y : Nat) : Nat × Nat :=
  match d.rotation with
  | 1 => (d.WIDTH - 1 - y, x)
  | 2 => (d.WIDTH - 1 - x, d.HEIGHT - 1 - y)
  | 3 => (y, d.HEIGHT - 1 - x)
  | _ => (x, y)

/-- The method `drawPixel(int16_t x, int16_t y, uint16_t color)`. -/
def drawPixel (d : Display) (x y : Int) (color : Nat) : Option Display :=
  if x < 0 ∨ x ≥ (_width d : Int) ∨ y < 0 ∨ y ≥ (_height d : Int) then some d
  else
    let p := rotate d x.toNat y.toNat
    match d.sharpmem_buffer with
    | none => none
    | some buf =>
      let i := (p.2 * d.WIDTH + p.1) / 8
      match buf[i]? with
      | none => none
      | some b =>
        if color ≠ 0 then
          match set[p.1 &&& 7]? with
          | none => none
          | some m => some { d with sharpmem_buffer := some (buf.set i ((b ||| m) % 256)) }
        else
          match clr[p.1 &&& 7]? with
          | none => none
          | some m => some { d with sharpmem_buffer := some (buf.set i ((b &&& m) % 256)) }

/-- The method `getPixel(uint16_t x, uint16_t y)`. -/
def getPixel (d : Display) (x y : Nat) : Option Nat :=
  if x ≥ _width d ∨ y ≥ _height d then some 0
  else
    let p := rotate d x y
    match d.sharpmem_buffer with
    | none => none
    | some buf =>
      match buf[(p.2 * d.WIDTH + p.1) / 8]? with
      | none => none
      | some b =>
        match set[p.1 &&& 7]? with
        | none => none
        | some m => some (if b &&& m ≠ 0 then 1 else 0)

/-- The method `clearDisplayBuffer`. -/
def clearDisplayBuffer (d : Display) : Option Display :=
  match d.sharpmem_buffer with
  | none => none
  | some buf =>
    match memset buf 0xff ((d.WIDTH * d.HEIGHT) / 8) with
    | none => none
    | some buf1 => some { d with sharpmem_buffer := some buf1 }

/-! ## refresh -/

/-- The macro `TOGGLE_VCOM`. -/
def TOGGLE_VCOM (d : Display) : Display :=
  { d with _sharpmem_vcom := if d._sharpmem_vcom ≠ 0 then 0x00 else SHARPMEM_BIT_VCOM }

/-- The `for (i = 0; i < HEIGHT; i++)` loop of the staged branch of `refresh`:
`n` iterations are left, `i` is the loop counter, `spi` the scratch buffer. -/
def refreshLoop (W : Nat) (pix : List Nat) : Nat → Nat → List Nat → Option (List Nat)
  | 0, _, spi => some spi
  | n + 1, i, spi =>
    match lineNumberLookup[i + 1]? with
    | none => none
    | some a =>
      match writeByte spi ((i * 2 + 1) + i * W / 8) a with
      | none => none
      | some spi1 =>
        match memcpy spi1 ((i * 2) + 2 + (i * W / 8)) pix (i * (W / 8)) (W / 8) with
        | none => none
        | some spi2 => refreshLoop W pix n (i + 1) spi2

/-- The length argument of `SPI.transfer` in the staged branch:
`(uint16_t)(2 + 2 * HEIGHT + (WIDTH * HEIGHT / 8))`. -/
def transferLength (d : Display) : Nat :=
  (2 + 2 * d.HEIGHT + (d.WIDTH * d.HEIGHT / 8)) % 65536

/-- The library call `SPI.transfer(buf, count)`: sends the first `count` bytes
of `buf` and stores the received bytes `miso 0, miso 1, ...` over them.
Returns the buffer afterwards and the bytes sent. -/
def SPI_transfer (buf : List Nat) (count : Nat) (miso : Nat → Nat) :
    Option (List Nat × List Nat) :=
  if count ≤ buf.length then
    some ((List.range count).map (fun k => miso k % 256) ++ buf.drop count, buf.take count)
  else none

/-- The method `refresh` (staged branch, `SPI_BUFFER_ENABLED` defined).
Returns the state afterwards and the byte sequence put on the bus; a null
buffer pointer makes the call undefined (`none`). -/
def refresh (d : Display) (miso : Nat → Nat) : Option (Display × List Nat) :=
  match d.sharpmem_spi_buffer, d.sharpmem_buffer with
  | some spi, some pix =>
    match writeByte spi 0 (SHARPMEM_BIT_WRITECMD ||| d._sharpmem_vcom) with
    | none => none
    | some spi0 =>
      match refreshLoop d.WIDTH pix d.HEIGHT 0 spi0 with
      | none => none
      | some spi1 =>
        match SPI_transfer spi1 (transferLength d) miso with
        | none => none
        | some (spi2, frame) =>
          some (TOGGLE_VCOM { d with sharpmem_spi_buffer := some spi2 }, frame)
  | _, _ => none

/-- The method `clearDisplay`: fill the buffer, then refresh. -/
def clearDisplay (d : Display) (miso : Nat → Nat) : Option (Display × List Nat) :=
  match d.sharpmem_buffer with
  | none => none
  | some buf =>
    match memset buf 0xff ((d.WIDTH * d.HEIGHT) / 8) with
    | none => none
    | some buf1 => refresh { d with sharpmem_buffer := some buf1 } miso

/-! ## Addressing of a pixel -/

/-- Index of the buffer byte that holds the pixel at logical `(x, y)`:
`(y' * WIDTH + x') / 8` with `(x', y')` the rotated coordinate. -/
def byteIndex (d : Display) (x y : Nat) : Nat :=
  ((rotate d x y).2 * d.WIDTH + (rotate d x y).1) / 8

/-- Position, counted from the least significant bit, of the pixel at logical
`(x, y)` inside its byte: `x' mod 8`. -/
def bitIndex (d : Display) (x y : Nat) : Nat :=
  (rotate d x y).1 % 8

/-- The byte `drawPixel` stores: bit `r` of `b` set (`color` nonzero) or
cleared (`color` zero), as the `|=` and `&=` of the source compute it. -/
def storedByte (b r color : Nat) : Nat :=
  if color ≠ 0 then (b ||| 2 ^ r) % 256 else (b &&& (255 - 2 ^ r)) % 256

/-! ## The layout of the encoded frame -/

/-- Index in the scratch buffer of the address byte of line `i`, as the staged
branch of `refresh` computes it: `(i * 2 + 1) + i * WIDTH / 8`. -/
def lineOffset (W i : Nat) : Nat := (i * 2 + 1) + i * W / 8

/-- The state `begin` leaves behind when both allocations succeed, and every
operation keeps: both buffers present with the sizes `begin` asks for, and the
polarity one of its two values. -/
def Ready (d : Display) : Prop :=
  d.sharpmem_buffer.map List.length = some (pixelBufferSize d) ∧
  d.sharpmem_spi_buffer.map List.length = some (spiBufferSize d) ∧
  (d._sharpmem_vcom = 0x00 ∨ d._sharpmem_vcom = SHARPMEM_BIT_VCOM)

instance (d : Display) : Decidable (Ready d) := by
  unfold Ready
  infer_instance

/-! ## Sequences of operations -/

/-- One call on the display object. -/
inductive Op where
  | drawPixel (x y : Int) (color : Nat)
  | getPixel (x y : Nat)
  | clearDisplayBuffer
  | clearDisplay (miso : Nat → Nat)
  | refresh (miso : Nat → Nat)

/-- The state after one call. -/
def step (d : Display) : Op → Option Display
  | Op.drawPixel x y color => drawPixel d x y color
  | Op.getPixel x y => (getPixel d x y).map (fun _ => d)
  | Op.clearDisplayBuffer => clearDisplayBuffer d
  | Op.clearDisplay miso => (clearDisplay d miso).map Prod.fst
  | Op.refresh miso => (refresh d miso).map Prod.fst

/-- The state after a sequence of calls. -/
def run (d : Display) : List Op → Option Display
  | [] => some d
  | op :: ops => (step d op).bind (fun d1 => run d1 ops)

/-- Number of `refresh` calls a sequence makes, the one inside `clearDisplay`
included. -/
def refreshCount : List Op → Nat
  | [] => 0
  | Op.refresh _ :: ops => refreshCount ops + 1
  | Op.clearDisplay _ :: ops => refreshCount ops + 1
  | _ :: ops => refreshCount ops

/-! ## Concrete panels used for evaluation -/

/-- A heap that hands out zeroed blocks. -/
def zeroHeap : Option (Nat → Nat) := some (fun _ => 0)

/-- A 4 x 3 panel after `begin`: its pixel buffer has `4 * 3 / 8 = 1` byte. -/
def panel4x3 : Display := (begin (construct 4 3) zeroHeap zeroHeap).2

/-- A 16 x 8 panel after `begin`, turned to rotation 1; the scratch buffer
starts out with the content `0, 1, 2, ...`. -/
def panel16x8 : Display :=
  setRotation (begin (construct 16 8) zeroHeap (some (fun k => k))).2 1

/-- An 8 x 2 panel after `begin`, all buffers zeroed. -/
def panel8x2 : Display := (begin (construct 8 2) zeroHeap zeroHeap).2

/-- A 320 x 240 panel after `begin`, all buffers zeroed. -/
def panel320x240 : Display := (begin (construct 320 240) zeroHeap zeroHeap).2

/-- A 2048 x 255 panel after `begin`, all buffers zeroed: its frame length
`2 + 2 * 255 + 2048 * 255 / 8 = 65792` does not fit 16 bits. -/
def panel2048x255 : Display := (begin (construct 2048 255) zeroHeap zeroHeap).2

/-! ## The streaming branch of refresh -/

/-- The library call `SPI.transfer(buf + off, count)` on a part of a buffer:
sends `count` bytes from offset `off` and stores the received bytes
`miso 0, miso 1, ...` over them.  Returns the buffer afterwards and the bytes
sent. -/
def SPI_transfer_at (buf : List Nat) (off count : Nat) (miso : Nat → Nat) :
    Option (List Nat × List Nat) :=
  if off + count ≤ buf.length then
    some (buf.take off ++ (List.range count).map (fun k => miso k % 256) ++
            buf.drop (off + count),
          (buf.drop off).take count)
  else none

/-- The `for (i = 0; i < HEIGHT; i++)` loop of the streaming branch of
`refresh`: `n` iterations are left, `i` is the loop counter, `pos` the number
of bytes put on the bus so far, `pix` the pixel buffer.  Returns the pixel
buffer afterwards and the transfer calls made, each with the bytes it sends:
per line the address byte, the `WIDTH / 8` data bytes and one dummy byte. -/
def streamLoop (W : Nat) (miso : Nat → Nat) :
    Nat → Nat → Nat → List Nat → Option (List Nat × List (List Nat))
  | 0, _, _, pix => some (pix, [])
  | n + 1, i, pos, pix =>
    match lineNumberLookup[i + 1]? with
    | none => none
    | some a =>
      match SPI_transfer_at pix (i * (W / 8)) (W / 8) (fun k => miso (pos + 1 + k)) with
      | none => none
      | some (pix1, data) =>
        match streamLoop W miso n (i + 1) (pos + 1 + W / 8 + 1) pix1 with
        | none => none
        | some (pix2, chunks) => some (pix2, [a % 256] :: data :: [0x00] :: chunks)

/-- The method `refresh` as the streaming branch has it (`SPI_BUFFER_ENABLED`
undefined).  Returns the state afterwards and the transfer calls made, in
order, each with the bytes it sends. -/
def refreshStreaming (d : Display) (miso : Nat → Nat) :
    Option (Display × List (List Nat)) :=
  match d.sharpmem_buffer with
  | none => none
  | some pix =>
    match streamLoop d.WIDTH miso d.HEIGHT 0 1 pix with
    | none => none
    | some (pix1, chunks) =>
      some (TOGGLE_VCOM { d with sharpmem_buffer := some pix1 },
            [(SHARPMEM_BIT_WRITECMD ||| d._sharpmem_vcom) % 256] :: chunks ++ [[0x00]])

/-- The method `begin` as built with `SPI_BUFFER_ENABLED` undefined: the
`malloc` of the scratch buffer is compiled out, the scratch pointer stays as
it was. -/
def beginStreaming (d : Display) (m1 : Option (Nat → Nat)) : Bool × Display :=
  let d1 := { d with _sharpmem_vcom := SHARPMEM_BIT_VCOM }
  let d2 := { d1 with sharpmem_buffer := malloc (pixelBufferSize d1) m1 }
  match d2.sharpmem_buffer with
  | none => (false, d2)
  | some _ => (true, setRotation d2 0)

/-- An 8 x 2 panel after `begin` in the streaming build: zeroed pixel buffer,
no scratch buffer. -/
def streamPanel8x2 : Display := (beginStreaming (construct 8 2) zeroHeap).2

/-- A 16 x 8 panel after `begin` in the streaming build: zeroed pixel buffer,
no scratch buffer. -/
def streamPanel16x8 : Display := (beginStreaming (construct 16 8) zeroHeap).2

/-! ## Lemmas on bytes and tables -/

theorem and_two_pow_ne_zero_iff (b r : Nat) : b &&& 2 ^ r ≠ 0 ↔ b.testBit r = true := by
  constructor
  · intro h
    by_contra hb
    apply h
    apply Nat.eq_of_testBit_eq
    intro i
    simp only [Nat.testBit_and, Nat.testBit_two_pow, Nat.zero_testBit, Bool.and_eq_false_imp,
      decide_eq_false_iff_not]
    intro hbi hri
    subst hri
    exact hb hbi
  · intro hb h
    have h1 : (b &&& 2 ^ r).testBit r = true := by
      simp [Nat.testBit_and, Nat.testBit_two_pow, hb]
    rw [h] at h1
    simp at h1

theorem set_lookup (x : Nat) : set[x &&& 7]? = some (2 ^ (x % 8)) := by
  have h : x &&& 7 = x % 8 := Nat.and_pow_two_sub_one_eq_mod x 3
  rw [h]
  have hlt : x % 8 < 8 := Nat.mod_lt _ (by decide)
  generalize x % 8 = r at hlt
  interval_cases r <;> rfl

theorem clr_lookup (x : Nat) : clr[x &&& 7]? = some (255 - 2 ^ (x % 8)) := by
  have h : x &&& 7 = x % 8 := Nat.and_pow_two_sub_one_eq_mod x 3
  rw [h]
  have hlt : x % 8 < 8 := Nat.mod_lt _ (by decide)
  generalize x % 8 = r at hlt
  interval_cases r <;> rfl

theorem testBit_clrMask (r j : Nat) (hr : r < 8) (hj : j < 8) :
    (255 - 2 ^ r).testBit j = decide (j ≠ r) := by
  interval_cases r <;> interval_cases j <;> rfl

theorem testBit_storedByte (b r color j : Nat) (hr : r < 8) (hj : j < 8) :
    (storedByte b r color).testBit j =
      if j = r then decide (color ≠ 0) else b.testBit j := by
  unfold storedByte
  have h256 : (256 : Nat) = 2 ^ 8 := by norm_num
  by_cases hc : color ≠ 0
  · rw [if_pos hc, h256, Nat.testBit_mod_two_pow, Nat.testBit_or, Nat.testBit_two_pow]
    by_cases hjr : j = r
    · subst hjr; simp [hj, hc]
    · have : ¬ r = j := fun h => hjr h.symm
      simp [hj, hjr, this]
  · rw [if_neg hc, h256, Nat.testBit_mod_two_pow, Nat.testBit_and, testBit_clrMask r j hr hj]
    by_cases hjr : j = r
    · subst hjr; simp [hc]
    · simp [hj, hjr]

theorem storedByte_lt (b r color : Nat) : storedByte b r color < 256 := by
  unfold storedByte
  split <;> exact Nat.mod_lt _ (by decide)

/-! ## Lemmas on the orientation transform -/

theorem rotate_fst_lt (d : Display) (x y : Nat) (hx : x < _width d) (hy : y < _height d) :
    (rotate d x y).1 < d.WIDTH := by
  unfold rotate
  unfold _width at hx
  unfold _height at hy
  split <;> simp_all <;> omega

theorem rotate_snd_lt (d : Display) (x y : Nat) (hx : x < _width d) (hy : y < _height d) :
    (rotate d x y).2 < d.HEIGHT := by
  unfold rotate
  unfold _width at hx
  unfold _height at hy
  split <;> simp_all <;> omega

theorem byteIndex_lt (d : Display) (x y : Nat) (hx : x < _width d) (hy : y < _height d)
    (h8 : 8 ∣ d.WIDTH * d.HEIGHT) : byteIndex d x y < d.WIDTH * d.HEIGHT / 8 := by
  have h1 := rotate_fst_lt d x y hx hy
  have h2 := rotate_snd_lt d x y hx hy
  unfold byteIndex
  have h3 : (rotate d x y).2 * d.WIDTH + d.WIDTH ≤ d.HEIGHT * d.WIDTH := by
    have : ((rotate d x y).2 + 1) * d.WIDTH ≤ d.HEIGHT * d.WIDTH :=
      Nat.mul_le_mul_right _ h2
    rw [Nat.add_mul, Nat.one_mul] at this
    exact this
  rw [Nat.mul_comm d.HEIGHT d.WIDTH] at h3
  obtain ⟨k, hk⟩ := h8
  rw [hk] at h3 ⊢
  omega

theorem bitIndex_lt (d : Display) (x y : Nat) : bitIndex d x y < 8 :=
  Nat.mod_lt _ (by decide)

/-! ## What drawPixel and getPixel do to an in-bounds pixel -/

theorem drawPixel_inbounds (d : Display) (buf : List Nat) (x y color b : Nat)
    (hbuf : d.sharpmem_buffer = some buf) (hx : x < _width d) (hy : y < _height d)
    (hb : buf[byteIndex d x y]? = some b) :
    drawPixel d (x : Int) (y : Int) color =
      some { d with
        sharpmem_buffer :=
          some (buf.set (byteIndex d x y) (storedByte b (bitIndex d x y) color)) } := by
  have hcond : ¬ ((x : Int) < 0 ∨ (x : Int) ≥ (_width d : Int) ∨ (y : Int) < 0 ∨
      (y : Int) ≥ (_height d : Int)) := by omega
  unfold drawPixel
  rw [if_neg hcond]
  simp only [Int.toNat_ofNat, hbuf]
  unfold byteIndex at hb
  simp only [hb, set_lookup, clr_lookup]
  unfold storedByte byteIndex bitIndex
  by_cases hc : color ≠ 0
  · simp [hc]
  · simp [hc]

theorem getPixel_inbounds (d : Display) (buf : List Nat) (x y b : Nat)
    (hbuf : d.sharpmem_buffer = some buf) (hx : x < _width d) (hy : y < _height d)
    (hb : buf[byteIndex d x y]? = some b) :
    getPixel d x y = some (if b.testBit (bitIndex d x y) then 1 else 0) := by
  have hcond : ¬ (x ≥ _width d ∨ y ≥ _height d) := by omega
  unfold getPixel
  rw [if_neg hcond]
  unfold byteIndex at hb
  simp only [hbuf, hb, set_lookup]
  unfold bitIndex
  by_cases ht : b.testBit ((rotate d x y).1 % 8) = true
  · have := (and_two_pow_ne_zero_iff b ((rotate d x y).1 % 8)).mpr ht
    simp [ht, this]
  · have : ¬ (b &&& 2 ^ ((rotate d x y).1 % 8) ≠ 0) :=
      fun h => ht ((and_two_pow_ne_zero_iff b _).mp h)
    simp [ht, this]

theorem byteIndex_lt_of_cases (d : Display) (buf : List Nat) (x y : Nat)
    (hx : x < _width d) (hy : y < _height d)
    (hin : byteIndex d x y < buf.length ∨
      (8 ∣ d.WIDTH * d.HEIGHT ∧ buf.length = d.WIDTH * d.HEIGHT / 8)) :
    byteIndex d x y < buf.length := by
  rcases hin with h | ⟨h8, hlen⟩
  · exact h
  · rw [hlen]; exact byteIndex_lt d x y hx hy h8

theorem drawPixel_then_getPixel (d : Display) (buf : List Nat) (x y color : Nat)
    (hbuf : d.sharpmem_buffer = some buf) (hx : x < _width d) (hy : y < _height d)
    (hlt : byteIndex d x y < buf.length) :
    (drawPixel d (x : Int) (y : Int) color).bind (fun d1 => getPixel d1 x y) =
      some (if color ≠ 0 then 1 else 0) := by
  obtain ⟨b, hb⟩ : ∃ b, buf[byteIndex d x y]? = some b :=
    ⟨buf[byteIndex d x y], List.getElem?_eq_getElem hlt⟩
  rw [drawPixel_inbounds d buf x y color b hbuf hx hy hb, Option.some_bind]
  have hb1 : (buf.set (byteIndex d x y) (storedByte b (bitIndex d x y) color))[
      byteIndex d x y]? = some (storedByte b (bitIndex d x y) color) := by
    rw [List.getElem?_set_self hlt]
  have hg := getPixel_inbounds
    { d with
      sharpmem_buffer :=
        some (buf.set (byteIndex d x y) (storedByte b (bitIndex d x y) color)) }
    (buf.set (byteIndex d x y) (storedByte b (bitIndex d x y) color)) x y
    (storedByte b (bitIndex d x y) color) rfl hx hy hb1
  rw [hg]
  have hbit : (storedByte b (bitIndex d x y) color).testBit (bitIndex d x y) =
      decide (color ≠ 0) := by
    rw [testBit_storedByte b _ color _ (bitIndex_lt d x y) (bitIndex_lt d x y)]
    simp
  have hsame : bitIndex { d with
      sharpmem_buffer :=
        some (buf.set (byteIndex d x y) (storedByte b (bitIndex d x y) color)) } x y =
      bitIndex d x y := rfl
  rw [hsame, hbit]
  by_cases hc : color ≠ 0 <;> simp [hc]

/-! ## Claims on single pixels -/

/-- C1 (amended): for every rotation and every logical `(x, y)` inside
`[0, _width) x [0, _height)` whose byte index `(y' * WIDTH + x') / 8` lies
inside the pixel buffer (every in-bounds pixel when `WIDTH * HEIGHT` is a
multiple of 8 and the buffer has the `WIDTH * HEIGHT / 8` bytes `begin`
allocates), `drawPixel (x, y, 1)` followed by `getPixel (x, y)` returns 1 and
`drawPixel (x, y, 0)` followed by `getPixel (x, y)` returns 0, whatever the
buffer held before. -/
theorem C1_roundtrip (d : Display) (buf : List Nat) (x y : Nat)
    (hbuf : d.sharpmem_buffer = some buf) (hx : x < _width d) (hy : y < _height d)
    (hin : byteIndex d x y < buf.length ∨
      (8 ∣ d.WIDTH * d.HEIGHT ∧ buf.length = d.WIDTH * d.HEIGHT / 8)) :
    (drawPixel d (x : Int) (y : Int) 1).bind (fun d1 => getPixel d1 x y) = some 1 ∧
    (drawPixel d (x : Int) (y : Int) 0).bind (fun d0 => getPixel d0 x y) = some 0 := by
  have hlt := byteIndex_lt_of_cases d buf x y hx hy hin
  exact ⟨drawPixel_then_getPixel d buf x y 1 hbuf hx hy hlt,
    drawPixel_then_getPixel d buf x y 0 hbuf hx hy hlt⟩

/-- C2: for every rotation and every `(x, y)` outside
`[0, _width) x [0, _height)`, negative coordinates included, `drawPixel`
returns with the whole state, hence every byte of the pixel buffer, unchanged
for every colour; and `getPixel` at unsigned coordinates outside the range
returns 0. -/
theorem C2_out_of_range (d : Display) :
    (∀ (x y : Int) (color : Nat),
      ¬ (0 ≤ x ∧ x < (_width d : Int) ∧ 0 ≤ y ∧ y < (_height d : Int)) →
        drawPixel d x y color = some d) ∧
    (∀ (x y : Nat), ¬ (x < _width d ∧ y < _height d) → getPixel d x y = some 0) := by
  constructor
  · intro x y color h
    have hcond : x < 0 ∨ x ≥ (_width d : Int) ∨ y < 0 ∨ y ≥ (_height d : Int) := by omega
    unfold drawPixel
    rw [if_pos hcond]
  · intro x y h
    have hcond : x ≥ _width d ∨ y ≥ _height d := by omega
    unfold getPixel
    rw [if_pos hcond]

/-- C1, as stated, fails: on the 4 x 3 panel (pixel buffer of one byte) the
in-bounds pixel `(0, 2)` has byte index 1, outside the buffer, so `drawPixel`
is an out-of-bounds access and the round trip does not return 1. -/
theorem C1_counterexample :
    (0 < _width panel4x3 ∧ 2 < _height panel4x3) ∧
    panel4x3.sharpmem_buffer = some [0] ∧
    (drawPixel panel4x3 0 2 1).bind (fun d1 => getPixel d1 0 2) ≠ some 1 := by
  decide

/-- C1 at rotation 1 on the 16 x 8 panel, pixel `(3, 5)`. -/
theorem C1_roundtrip_witness :
    (3 < _width panel16x8 ∧ 5 < _height panel16x8) ∧
    ((drawPixel panel16x8 3 5 1).bind (fun d1 => getPixel d1 3 5) = some 1 ∧
     (drawPixel panel16x8 3 5 0).bind (fun d0 => getPixel d0 3 5) = some 0) :=
  ⟨⟨by decide, by decide⟩,
   C1_roundtrip panel16x8 (List.replicate 16 0) 3 5 (by decide) (by decide) (by decide)
     (Or.inr ⟨by decide, by decide⟩)⟩

/-- C2 on the 16 x 8 panel at rotation 1 (logical size 8 x 16): a negative `x`
for `drawPixel`, and `x = 8` for `getPixel`. -/
theorem C2_out_of_range_witness :
    drawPixel panel16x8 (-1) 3 1 = some panel16x8 ∧ getPixel panel16x8 8 3 = some 0 :=
  ⟨(C2_out_of_range panel16x8).1 (-1) 3 1 (by decide),
   (C2_out_of_range panel16x8).2 8 3 (by decide)⟩

/-! ## clearDisplayBuffer -/

theorem memset_eq (buf : List Nat) (v n : Nat) (h : n ≤ buf.length) :
    memset buf v n = some (List.replicate n (v % 256) ++ buf.drop n) := by
  unfold memset
  rw [if_pos h]

theorem memset_length (buf buf1 : List Nat) (v n : Nat) (h : memset buf v n = some buf1) :
    buf1.length = buf.length := by
  unfold memset at h
  split at h
  · cases h
    simp
    omega
  · cases h

theorem memset_get (buf : List Nat) (v n k : Nat) (hk : k < n) :
    (List.replicate n (v % 256) ++ buf.drop n)[k]? = some (v % 256) := by
  rw [List.getElem?_append_left (by simpa using hk)]
  exact List.getElem?_replicate_of_lt hk

theorem clearDisplayBuffer_eq (d : Display) (buf : List Nat)
    (hbuf : d.sharpmem_buffer = some buf) (hlen : d.WIDTH * d.HEIGHT / 8 ≤ buf.length) :
    clearDisplayBuffer d = some { d with
      sharpmem_buffer :=
        some (List.replicate (d.WIDTH * d.HEIGHT / 8) 255 ++
          buf.drop (d.WIDTH * d.HEIGHT / 8)) } := by
  unfold clearDisplayBuffer
  simp only [hbuf, memset_eq buf 0xff _ hlen]

/-- C7 (amended): after `clearDisplayBuffer`, on a pixel buffer of the
`WIDTH * HEIGHT / 8` bytes `begin` allocates and whatever it held, `getPixel`
returns 1 for every rotation and every in-bounds logical `(x, y)` whose byte
index `(y' * WIDTH + x') / 8` lies inside the buffer, which is every in-bounds
pixel when `WIDTH * HEIGHT` is a multiple of 8. -/
theorem C7_clear_reads_light (d : Display) (buf : List Nat) (x y : Nat)
    (hbuf : d.sharpmem_buffer = some buf) (hlen : buf.length = d.WIDTH * d.HEIGHT / 8)
    (hx : x < _width d) (hy : y < _height d)
    (hin : byteIndex d x y < d.WIDTH * d.HEIGHT / 8 ∨ 8 ∣ d.WIDTH * d.HEIGHT) :
    (clearDisplayBuffer d).bind (fun d1 => getPixel d1 x y) = some 1 := by
  have hlt : byteIndex d x y < d.WIDTH * d.HEIGHT / 8 := by
    rcases hin with h | h
    · exact h
    · exact byteIndex_lt d x y hx hy h
  rw [clearDisplayBuffer_eq d buf hbuf (by omega), Option.some_bind]
  have hb := memset_get buf 0xff (d.WIDTH * d.HEIGHT / 8) (byteIndex d x y) hlt
  have hg := getPixel_inbounds
    { d with
      sharpmem_buffer :=
        some (List.replicate (d.WIDTH * d.HEIGHT / 8) 255 ++
          buf.drop (d.WIDTH * d.HEIGHT / 8)) }
    _ x y (0xff % 256) rfl hx hy hb
  rw [hg]
  have hr := bitIndex_lt d x y
  have hsame : bitIndex { d with
      sharpmem_buffer :=
        some (List.replicate (d.WIDTH * d.HEIGHT / 8) 255 ++
          buf.drop (d.WIDTH * d.HEIGHT / 8)) } x y = bitIndex d x y := rfl
  rw [hsame]
  generalize bitIndex d x y = r at hr
  interval_cases r <;> rfl

/-- C7, as stated, fails: on the 4 x 3 panel the one-byte buffer is filled
with 0xff, but the in-bounds pixel `(0, 2)` lies in byte 1, outside the
buffer, so `getPixel` is an out-of-bounds read and does not return 1. -/
theorem C7_counterexample :
    (0 < _width panel4x3 ∧ 2 < _height panel4x3) ∧
    (clearDisplayBuffer panel4x3).map (fun d1 => d1.sharpmem_buffer) = some (some [255]) ∧
    (clearDisplayBuffer panel4x3).bind (fun d1 => getPixel d1 0 2) ≠ some 1 := by
  decide

/-- C7 at rotation 1 on the 16 x 8 panel, pixel `(7, 15)`. -/
theorem C7_clear_reads_light_witness :
    (7 < _width panel16x8 ∧ 15 < _height panel16x8) ∧
    (clearDisplayBuffer panel16x8).bind (fun d1 => getPixel d1 7 15) = some 1 :=
  ⟨⟨by decide, by decide⟩,
   C7_clear_reads_light panel16x8 (List.replicate 16 0) 7 15 (by decide) (by decide)
     (by decide) (by decide) (Or.inr (by decide))⟩

/-! ## The footprint of drawPixel -/

/-- C8 (amended): for every rotation and every in-bounds logical `(x, y)`
whose byte index lies inside the pixel buffer (every in-bounds pixel when
`WIDTH * HEIGHT` is a multiple of 8), `drawPixel (x, y, value)` changes nothing
of the state but the pixel buffer, keeps its length, changes no byte other
than the one at index `(y' * WIDTH + x') / 8`, and in that byte changes no bit
other than bit `x' mod 8` (least significant bit = 0), which becomes 1 when
`value` is nonzero and 0 when it is 0; `(x', y')` is given by the rotation
table (0: identity; 1: `(WIDTH - 1 - y, x)`; 2: `(WIDTH - 1 - x, HEIGHT - 1 - y)`;
3: `(y, HEIGHT - 1 - x)`). -/
theorem C8_drawPixel_footprint (d : Display) (buf : List Nat) (x y color : Nat)
    (hbuf : d.sharpmem_buffer = some buf) (hx : x < _width d) (hy : y < _height d)
    (hin : byteIndex d x y < buf.length ∨
      (8 ∣ d.WIDTH * d.HEIGHT ∧ buf.length = d.WIDTH * d.HEIGHT / 8)) :
    (∃ buf1 b b1,
      drawPixel d (x : Int) (y : Int) color = some { d with sharpmem_buffer := some buf1 } ∧
      buf1.length = buf.length ∧
      (∀ k, k ≠ byteIndex d x y → buf1[k]? = buf[k]?) ∧
      buf[byteIndex d x y]? = some b ∧ buf1[byteIndex d x y]? = some b1 ∧
      (∀ j, j < 8 → j ≠ bitIndex d x y → b1.testBit j = b.testBit j) ∧
      b1.testBit (bitIndex d x y) = decide (color ≠ 0) ∧ b1 < 256) ∧
    (d.rotation = 0 →
      byteIndex d x y = (y * d.WIDTH + x) / 8 ∧ bitIndex d x y = x % 8) ∧
    (d.rotation = 1 →
      byteIndex d x y = (x * d.WIDTH + (d.WIDTH - 1 - y)) / 8 ∧
      bitIndex d x y = (d.WIDTH - 1 - y) % 8) ∧
    (d.rotation = 2 →
      byteIndex d x y = ((d.HEIGHT - 1 - y) * d.WIDTH + (d.WIDTH - 1 - x)) / 8 ∧
      bitIndex d x y = (d.WIDTH - 1 - x) % 8) ∧
    (d.rotation = 3 →
      byteIndex d x y = ((d.HEIGHT - 1 - x) * d.WIDTH + y) / 8 ∧
      bitIndex d x y = y % 8) := by
  have hlt := byteIndex_lt_of_cases d buf x y hx hy hin
  obtain ⟨b, hb⟩ : ∃ b, buf[byteIndex d x y]? = some b :=
    ⟨buf[byteIndex d x y], List.getElem?_eq_getElem hlt⟩
  refine ⟨⟨buf.set (byteIndex d x y) (storedByte b (bitIndex d x y) color), b,
    storedByte b (bitIndex d x y) color,
    drawPixel_inbounds d buf x y color b hbuf hx hy hb, by simp, ?_, hb,
    List.getElem?_set_self hlt, ?_, ?_, storedByte_lt _ _ _⟩, ?_, ?_, ?_, ?_⟩
  · intro k hk
    exact List.getElem?_set_ne (fun h => hk h.symm)
  · intro j hj hne
    rw [testBit_storedByte b _ color j (bitIndex_lt d x y) hj, if_neg hne]
  · rw [testBit_storedByte b _ color _ (bitIndex_lt d x y) (bitIndex_lt d x y), if_pos rfl]
  · intro hr; simp [byteIndex, bitIndex, rotate, hr]
  · intro hr; simp [byteIndex, bitIndex, rotate, hr]
  · intro hr; simp [byteIndex, bitIndex, rotate, hr]
  · intro hr; simp [byteIndex, bitIndex, rotate, hr]

/-- C8, as stated, fails: on the 4 x 3 panel the in-bounds pixel `(0, 2)` has
byte index 1 while the pixel buffer has the single byte 0, so `drawPixel`
stores outside the buffer and there is no byte of the buffer whose bit
becomes 1. -/
theorem C8_counterexample :
    (0 < _width panel4x3 ∧ 2 < _height panel4x3) ∧
    byteIndex panel4x3 0 2 = 1 ∧
    panel4x3.sharpmem_buffer = some [0] ∧
    drawPixel panel4x3 0 2 1 = none := by
  decide

/-! ## Memory primitives and the loop of refresh -/

theorem lineOffset_gap (W i j : Nat) (h : i < j) :
    lineOffset W i + W / 8 + 2 ≤ lineOffset W j := by
  unfold lineOffset
  have h1 : (i + 1) * W ≤ j * W := Nat.mul_le_mul_right _ h
  rw [Nat.add_mul, Nat.one_mul] at h1
  omega

theorem writeByte_eq (buf : List Nat) (i v : Nat) (h : i < buf.length) :
    writeByte buf i v = some (buf.set i (v % 256)) := by
  unfold writeByte
  rw [if_pos h]

theorem writeByte_some (buf buf1 : List Nat) (i v : Nat) (h : writeByte buf i v = some buf1) :
    i < buf.length ∧ buf1 = buf.set i (v % 256) := by
  unfold writeByte at h
  split at h
  · cases h; exact ⟨by assumption, rfl⟩
  · cases h

theorem writeByte_length (buf buf1 : List Nat) (i v : Nat)
    (h : writeByte buf i v = some buf1) : buf1.length = buf.length := by
  rw [(writeByte_some buf buf1 i v h).2]; simp

theorem writeByte_get (buf buf1 : List Nat) (i v k : Nat)
    (h : writeByte buf i v = some buf1) :
    buf1[k]? = if k = i then some (v % 256) else buf[k]? := by
  obtain ⟨hlt, rfl⟩ := writeByte_some buf buf1 i v h
  by_cases hk : k = i
  · subst hk; rw [if_pos rfl, List.getElem?_set_self hlt]
  · rw [if_neg hk, List.getElem?_set_ne (fun h => hk h.symm)]

theorem memcpy_some (dst dst1 src : List Nat) (doff soff n : Nat)
    (h : memcpy dst doff src soff n = some dst1) :
    (doff + n ≤ dst.length ∧ soff + n ≤ src.length) ∧
    dst1 = dst.take doff ++ (src.drop soff).take n ++ dst.drop (doff + n) := by
  unfold memcpy at h
  split at h
  · cases h; exact ⟨by assumption, rfl⟩
  · cases h

theorem memcpy_eq (dst src : List Nat) (doff soff n : Nat)
    (h : doff + n ≤ dst.length ∧ soff + n ≤ src.length) :
    memcpy dst doff src soff n =
      some (dst.take doff ++ (src.drop soff).take n ++ dst.drop (doff + n)) := by
  unfold memcpy
  rw [if_pos h]

theorem memcpy_length (dst dst1 src : List Nat) (doff soff n : Nat)
    (h : memcpy dst doff src soff n = some dst1) : dst1.length = dst.length := by
  obtain ⟨⟨h1, h2⟩, rfl⟩ := memcpy_some dst dst1 src doff soff n h
  simp
  omega

theorem memcpy_get (dst dst1 src : List Nat) (doff soff n k : Nat)
    (h : memcpy dst doff src soff n = some dst1) :
    dst1[k]? = if doff ≤ k ∧ k < doff + n then src[soff + (k - doff)]? else dst[k]? := by
  obtain ⟨⟨h1, h2⟩, rfl⟩ := memcpy_some dst dst1 src doff soff n h
  have hA : (dst.take doff).length = doff := by simp; omega
  have hB : ((src.drop soff).take n).length = n := by simp; omega
  by_cases hk1 : k < doff
  · rw [if_neg (by omega), List.append_assoc, List.getElem?_append_left (by omega),
      List.getElem?_take_of_lt hk1]
  · by_cases hk2 : k < doff + n
    · rw [if_pos (by omega), List.append_assoc, List.getElem?_append_right (by omega),
        List.getElem?_append_left (by omega), hA, List.getElem?_take_of_lt (by omega),
        List.getElem?_drop]
    · rw [if_neg (by omega), List.getElem?_append_right (by simp; omega),
        List.getElem?_drop]
      congr 1
      simp
      omega


theorem lineNumberLookup_lt (i a : Nat) (h : lineNumberLookup[i]? = some a) : a < 256 := by
  have hmem : a ∈ lineNumberLookup := List.getElem?_mem h
  have hall : ∀ b ∈ lineNumberLookup, b < 256 := by decide
  exact hall a hmem

theorem lineNumberLookup_length : lineNumberLookup.length = 256 := by rfl

theorem refreshLoop_step (W : Nat) (pix : List Nat) (n i : Nat) (spi spi1 : List Nat)
    (h : refreshLoop W pix (n + 1) i spi = some spi1) :
    ∃ a s1 s2, lineNumberLookup[i + 1]? = some a ∧
      writeByte spi (lineOffset W i) a = some s1 ∧
      memcpy s1 (lineOffset W i + 1) pix (i * (W / 8)) (W / 8) = some s2 ∧
      refreshLoop W pix n (i + 1) s2 = some spi1 := by
  rw [refreshLoop] at h
  have e1 : i * 2 + 2 + i * W / 8 = lineOffset W i + 1 := by unfold lineOffset; omega
  have e2 : i * 2 + 1 + i * W / 8 = lineOffset W i := rfl
  rw [e1, e2] at h
  cases ha : lineNumberLookup[i + 1]? with
  | none => rw [ha] at h; cases h
  | some a =>
    rw [ha] at h
    dsimp only at h
    cases h1 : writeByte spi (lineOffset W i) a with
    | none => rw [h1] at h; cases h
    | some s1 =>
      rw [h1] at h
      dsimp only at h
      cases h2 : memcpy s1 (lineOffset W i + 1) pix (i * (W / 8)) (W / 8) with
      | none => rw [h2] at h; cases h
      | some s2 =>
        rw [h2] at h
        exact ⟨a, s1, s2, rfl, h1, h2, h⟩

theorem refreshLoop_spec (W : Nat) (pix : List Nat) :
    ∀ (n i : Nat) (spi spi1 : List Nat), refreshLoop W pix n i spi = some spi1 →
      spi1.length = spi.length ∧
      (∀ k, (∀ j, i ≤ j → j < i + n → k < lineOffset W j ∨ lineOffset W j + 1 + W / 8 ≤ k) →
        spi1[k]? = spi[k]?) ∧
      (∀ j, i ≤ j → j < i + n →
        spi1[lineOffset W j]? = lineNumberLookup[j + 1]? ∧
        ∀ m, m < W / 8 → spi1[lineOffset W j + 1 + m]? = pix[j * (W / 8) + m]?) := by
  intro n
  induction n with
  | zero =>
    intro i spi spi1 h
    rw [refreshLoop] at h
    cases h
    refine ⟨rfl, fun _ _ => rfl, ?_⟩
    intro j h1 h2
    omega
  | succ n ih =>
    intro i spi spi1 h
    obtain ⟨a, s1, s2, ha, hw, hm, hrec⟩ := refreshLoop_step W pix n i spi spi1 h
    obtain ⟨hlen, hframe, hdata⟩ := ih (i + 1) s2 spi1 hrec
    have hl1 := writeByte_length _ _ _ _ hw
    have hl2 := memcpy_length _ _ _ _ _ _ hm
    have ha256 : a % 256 = a := Nat.mod_eq_of_lt (lineNumberLookup_lt _ _ ha)
    -- positions of line `i` are not touched by later iterations
    have hlater : ∀ k, k < lineOffset W i + 1 + W / 8 + 1 → spi1[k]? = s2[k]? := by
      intro k hk
      apply hframe
      intro j hj1 hj2
      have := lineOffset_gap W i j (by omega)
      omega
    refine ⟨by omega, ?_, ?_⟩
    · intro k hk
      have hki := hk i (Nat.le_refl _) (by omega)
      have h1 : spi1[k]? = s2[k]? := by
        apply hframe
        intro j hj1 hj2
        exact hk j (by omega) (by omega)
      rw [h1, memcpy_get _ _ _ _ _ _ k hm, if_neg (by omega),
        writeByte_get _ _ _ _ k hw, if_neg (by omega)]
    · intro j hj1 hj2
      by_cases hji : j = i
      · subst hji
        constructor
        · rw [hlater _ (by omega), memcpy_get _ _ _ _ _ _ _ hm, if_neg (by omega),
            writeByte_get _ _ _ _ _ hw, if_pos rfl, ha256, ha]
        · intro m hm'
          rw [hlater _ (by omega), memcpy_get _ _ _ _ _ _ _ hm, if_pos (by omega)]
          congr 1
          omega
      · exact hdata j (by omega) (by omega)

theorem refreshLoop_total (W : Nat) (pix : List Nat) :
    ∀ (n i : Nat) (spi : List Nat), i + n ≤ 255 →
      (∀ j, i ≤ j → j < i + n →
        lineOffset W j + 1 + W / 8 ≤ spi.length ∧ j * (W / 8) + W / 8 ≤ pix.length) →
      ∃ spi1, refreshLoop W pix n i spi = some spi1 := by
  intro n
  induction n with
  | zero => intro i spi _ _; exact ⟨spi, by rw [refreshLoop]⟩
  | succ n ih =>
    intro i spi hi hb
    obtain ⟨hb1, hb2⟩ := hb i (Nat.le_refl _) (by omega)
    have hlt : i + 1 < lineNumberLookup.length := by rw [lineNumberLookup_length]; omega
    have ha : lineNumberLookup[i + 1]? = some lineNumberLookup[i + 1] :=
      List.getElem?_eq_getElem hlt
    have hw := writeByte_eq spi (lineOffset W i) lineNumberLookup[i + 1] (by omega)
    have hm := memcpy_eq (spi.set (lineOffset W i) (lineNumberLookup[i + 1] % 256)) pix
      (lineOffset W i + 1) (i * (W / 8)) (W / 8) (by simp; omega)
    obtain ⟨spi1, hrec⟩ := ih (i + 1)
      ((spi.set (lineOffset W i) (lineNumberLookup[i + 1] % 256)).take (lineOffset W i + 1) ++
        (pix.drop (i * (W / 8))).take (W / 8) ++
        (spi.set (lineOffset W i) (lineNumberLookup[i + 1] % 256)).drop
          (lineOffset W i + 1 + W / 8))
      (by omega)
      (by
        intro j hj1 hj2
        have := hb j (by omega) (by omega)
        have hl := memcpy_length _ _ _ _ _ _ hm
        rw [hl]
        simpa using this)
    refine ⟨spi1, ?_⟩
    rw [refreshLoop]
    have e1 : i * 2 + 2 + i * W / 8 = lineOffset W i + 1 := by unfold lineOffset; omega
    have e2 : i * 2 + 1 + i * W / 8 = lineOffset W i := rfl
    rw [e1, e2, ha]
    simp only [hw, hm]
    exact hrec

/-! ## refresh -/

theorem refresh_some (d d1 : Display) (miso : Nat → Nat) (frame : List Nat)
    (h : refresh d miso = some (d1, frame)) :
    ∃ spi pix s0 s1, d.sharpmem_spi_buffer = some spi ∧ d.sharpmem_buffer = some pix ∧
      writeByte spi 0 (SHARPMEM_BIT_WRITECMD ||| d._sharpmem_vcom) = some s0 ∧
      refreshLoop d.WIDTH pix d.HEIGHT 0 s0 = some s1 ∧
      transferLength d ≤ s1.length ∧
      frame = s1.take (transferLength d) ∧
      d1 = TOGGLE_VCOM { d with
        sharpmem_spi_buffer :=
          some ((List.range (transferLength d)).map (fun k => miso k % 256) ++
            s1.drop (transferLength d)) } := by
  unfold refresh at h
  cases hs : d.sharpmem_spi_buffer with
  | none => rw [hs] at h; cases h
  | some spi =>
    cases hp : d.sharpmem_buffer with
    | none => rw [hs, hp] at h; cases h
    | some pix =>
      rw [hs, hp] at h
      dsimp only at h
      cases h0 : writeByte spi 0 (SHARPMEM_BIT_WRITECMD ||| d._sharpmem_vcom) with
      | none => rw [h0] at h; cases h
      | some s0 =>
        rw [h0] at h
        dsimp only at h
        cases h1 : refreshLoop d.WIDTH pix d.HEIGHT 0 s0 with
        | none => rw [h1] at h; cases h
        | some s1 =>
          rw [h1] at h
          dsimp only at h
          unfold SPI_transfer at h
          by_cases hl : transferLength d ≤ s1.length
          · rw [if_pos hl] at h
            dsimp only at h
            cases h
            exact ⟨spi, pix, s0, s1, rfl, rfl, h0, h1, hl, rfl, rfl⟩
          · rw [if_neg hl] at h
            cases h

theorem mul_div_le_div_mul (W H : Nat) : H * (W / 8) ≤ W * H / 8 := by
  rw [Nat.le_div_iff_mul_le (by decide)]
  have h1 : 8 * (W / 8) ≤ W := Nat.mul_div_le W 8
  calc H * (W / 8) * 8 = H * (8 * (W / 8)) := by ring
    _ ≤ H * W := Nat.mul_le_mul_left _ h1
    _ = W * H := Nat.mul_comm _ _

theorem line_fits (W H j : Nat) (hj : j < H) :
    lineOffset W j + 1 + W / 8 ≤ 2 * H + W * H / 8 ∧ j * (W / 8) + W / 8 ≤ W * H / 8 := by
  have h1 : (j + 1) * W ≤ H * W := Nat.mul_le_mul_right _ hj
  have h2 : (j + 1) * (W / 8) ≤ H * (W / 8) := Nat.mul_le_mul_right _ hj
  have h3 := mul_div_le_div_mul W H
  rw [Nat.add_mul, Nat.one_mul] at h1 h2
  rw [Nat.mul_comm H W] at h1
  unfold lineOffset
  constructor
  · omega
  · omega

theorem refresh_total (d : Display) (miso : Nat → Nat) (hr : Ready d)
    (hH : d.HEIGHT ≤ 255) : ∃ d1 frame, refresh d miso = some (d1, frame) := by
  obtain ⟨hp, hs, _⟩ := hr
  cases hpix : d.sharpmem_buffer with
  | none => rw [hpix] at hp; cases hp
  | some pix =>
    cases hspi : d.sharpmem_spi_buffer with
    | none => rw [hspi] at hs; cases hs
    | some spi =>
      rw [hpix] at hp
      rw [hspi] at hs
      simp only [Option.map_some', Option.some.injEq] at hp hs
      unfold pixelBufferSize at hp
      unfold spiBufferSize at hs
      have h0 := writeByte_eq spi 0 (SHARPMEM_BIT_WRITECMD ||| d._sharpmem_vcom) (by omega)
      obtain ⟨s1, h1⟩ := refreshLoop_total d.WIDTH pix d.HEIGHT 0
        (spi.set 0 ((SHARPMEM_BIT_WRITECMD ||| d._sharpmem_vcom) % 256)) (by omega)
        (by
          intro j _ hj
          have := line_fits d.WIDTH d.HEIGHT j (by omega)
          rw [List.length_set]
          omega)
      have hl1 : s1.length = spi.length := by
        rw [(refreshLoop_spec _ _ _ _ _ _ h1).1, List.length_set]
      have hl : transferLength d ≤ s1.length := by
        unfold transferLength
        have := Nat.mod_le (2 + 2 * d.HEIGHT + d.WIDTH * d.HEIGHT / 8) 65536
        omega
      have hres : ∃ r, refresh d miso = some r := by
        unfold refresh
        simp only [hspi, hpix, h0, h1]
        unfold SPI_transfer
        rw [if_pos hl]
        exact ⟨_, rfl⟩
      obtain ⟨⟨d1, frame⟩, h⟩ := hres
      exact ⟨d1, frame, h⟩

theorem refresh_frame (d d1 : Display) (miso : Nat → Nat) (frame spi pix : List Nat)
    (h : refresh d miso = some (d1, frame))
    (hspi : d.sharpmem_spi_buffer = some spi) (hpix : d.sharpmem_buffer = some pix) :
    frame.length = transferLength d ∧
    (0 < transferLength d →
      frame[0]? = some ((SHARPMEM_BIT_WRITECMD ||| d._sharpmem_vcom) % 256)) ∧
    (∀ j, j < d.HEIGHT → lineOffset d.WIDTH j < transferLength d →
      frame[lineOffset d.WIDTH j]? = lineNumberLookup[j + 1]?) ∧
    (∀ j m, j < d.HEIGHT → m < d.WIDTH / 8 →
      lineOffset d.WIDTH j + 1 + m < transferLength d →
      frame[lineOffset d.WIDTH j + 1 + m]? = pix[j * (d.WIDTH / 8) + m]?) ∧
    (∀ k, k < transferLength d → k ≠ 0 →
      (∀ j, j < d.HEIGHT →
        k < lineOffset d.WIDTH j ∨ lineOffset d.WIDTH j + 1 + d.WIDTH / 8 ≤ k) →
      frame[k]? = spi[k]?) := by
  obtain ⟨spi', pix', s0, s1, hs, hp, h0, h1, hl, hf, _⟩ := refresh_some d d1 miso frame h
  rw [hspi] at hs
  rw [hpix] at hp
  cases hs
  cases hp
  obtain ⟨_, hframe, hdata⟩ := refreshLoop_spec _ _ _ _ _ _ h1
  have hget : ∀ k, k < transferLength d → frame[k]? = s1[k]? := by
    intro k hk
    rw [hf, List.getElem?_take_of_lt hk]
  refine ⟨by rw [hf, List.length_take]; omega, ?_, ?_, ?_, ?_⟩
  · intro hpos
    rw [hget 0 hpos, hframe 0 (by intro j _ _; unfold lineOffset; omega),
      writeByte_get _ _ _ _ 0 h0, if_pos rfl]
  · intro j hj hk
    rw [hget _ hk]
    exact (hdata j (by omega) (by omega)).1
  · intro j m hj hm hk
    rw [hget _ hk]
    exact (hdata j (by omega) (by omega)).2 m hm
  · intro k hk hk0 hfree
    rw [hget _ hk, hframe k (by intro j _ hj; exact hfree j (by omega)),
      writeByte_get _ _ _ _ k h0, if_neg hk0]

theorem refresh_state (d d1 : Display) (miso : Nat → Nat) (frame : List Nat)
    (h : refresh d miso = some (d1, frame)) :
    d1.WIDTH = d.WIDTH ∧ d1.HEIGHT = d.HEIGHT ∧ d1.rotation = d.rotation ∧
    d1.sharpmem_buffer = d.sharpmem_buffer ∧
    d1._sharpmem_vcom = (if d._sharpmem_vcom ≠ 0 then 0x00 else SHARPMEM_BIT_VCOM) ∧
    d1.sharpmem_spi_buffer.map List.length = d.sharpmem_spi_buffer.map List.length := by
  obtain ⟨spi, pix, s0, s1, hs, hp, h0, h1, hl, hf, hd⟩ := refresh_some d d1 miso frame h
  subst hd
  refine ⟨rfl, rfl, rfl, rfl, rfl, ?_⟩
  have hl0 := writeByte_length _ _ _ _ h0
  have hl1 := (refreshLoop_spec _ _ _ _ _ _ h1).1
  simp only [TOGGLE_VCOM, hs, Option.map_some', Option.some.injEq, List.length_append,
    List.length_map, List.length_range, List.length_drop]
  omega

theorem refresh_ready (d d1 : Display) (miso : Nat → Nat) (frame : List Nat)
    (hr : Ready d) (h : refresh d miso = some (d1, frame)) : Ready d1 := by
  obtain ⟨h1, h2, h3, h4, h5, h6⟩ := refresh_state d d1 miso frame h
  obtain ⟨hp, hs, hv⟩ := hr
  unfold Ready pixelBufferSize spiBufferSize at *
  rw [h1, h2, h4, h5, h6]
  refine ⟨hp, hs, ?_⟩
  rcases hv with hv | hv <;> rw [hv] <;> simp [SHARPMEM_BIT_VCOM]

/-! ## begin and the encoded frame -/

theorem begin_ok (d0 : Display) (g1 g2 : Nat → Nat) :
    begin d0 (some g1) (some g2) =
      (true, { WIDTH := d0.WIDTH, HEIGHT := d0.HEIGHT, rotation := 0,
               _sharpmem_vcom := SHARPMEM_BIT_VCOM,
               sharpmem_buffer :=
                 some ((List.range (d0.WIDTH * d0.HEIGHT / 8)).map (fun i => g1 i % 256)),
               sharpmem_spi_buffer :=
                 some ((List.range (d0.WIDTH * d0.HEIGHT / 8 + 3 + 2 * d0.HEIGHT + 240)).map
                   (fun i => g2 i % 256)) }) := rfl

theorem begin_ready (d0 : Display) (g1 g2 : Nat → Nat) :
    Ready (begin d0 (some g1) (some g2)).2 := by
  rw [begin_ok]
  unfold Ready pixelBufferSize spiBufferSize
  simp

theorem header_byte (v : Nat) (hv : v = 0x00 ∨ v = SHARPMEM_BIT_VCOM) :
    (SHARPMEM_BIT_WRITECMD ||| v) % 256 = SHARPMEM_BIT_WRITECMD ||| v := by
  rcases hv with hv | hv <;> rw [hv] <;> decide

theorem lineOffset_of_dvd (W i : Nat) (h8 : 8 ∣ W) :
    lineOffset W i = 1 + i * (1 + W / 8 + 1) := by
  unfold lineOffset
  rw [Nat.mul_div_assoc i h8, Nat.mul_add, Nat.mul_add]
  omega

theorem frame_length_of_dvd (W H : Nat) (h8 : 8 ∣ W) :
    2 + 2 * H + W * H / 8 = 1 + H * (1 + W / 8 + 1) + 1 := by
  rw [Nat.mul_comm W H, Nat.mul_div_assoc H h8, Nat.mul_add, Nat.mul_add]
  omega

/-- C3 (amended): for every panel whose width is a multiple of 8, whose height
is at most 255 and whose frame length fits the 16-bit length argument, in the
state `begin` sets up, the byte sequence one `refresh` transfers has
`1 + HEIGHT * (1 + WIDTH / 8 + 1) + 1` bytes: byte 0 is `0x80` OR the polarity
held before the refresh; line `i` (in ascending order) occupies
`1 + WIDTH / 8 + 1` bytes from index `1 + i * (1 + WIDTH / 8 + 1)`: the address
byte `lineNumberLookup[i + 1]`, then the `WIDTH / 8` bytes of the pixel buffer
from offset `i * (WIDTH / 8)`, then one trailing byte; one more trailing byte
ends the frame.  The trailing bytes are not written by `refresh`: they are what
the scratch buffer held at those indices. -/
theorem C3_frame_layout (d : Display) (pix spi : List Nat) (miso : Nat → Nat)
    (hpix : d.sharpmem_buffer = some pix) (hspi : d.sharpmem_spi_buffer = some spi)
    (hr : Ready d) (h8 : 8 ∣ d.WIDTH) (hH : d.HEIGHT ≤ 255)
    (hfit : 2 + 2 * d.HEIGHT + d.WIDTH * d.HEIGHT / 8 < 65536) :
    ∃ d1 frame, refresh d miso = some (d1, frame) ∧
      frame.length = 1 + d.HEIGHT * (1 + d.WIDTH / 8 + 1) + 1 ∧
      frame[0]? = some (SHARPMEM_BIT_WRITECMD ||| d._sharpmem_vcom) ∧
      (∀ i, i < d.HEIGHT →
        frame[1 + i * (1 + d.WIDTH / 8 + 1)]? = lineNumberLookup[i + 1]? ∧
        (∀ m, m < d.WIDTH / 8 →
          frame[1 + i * (1 + d.WIDTH / 8 + 1) + 1 + m]? = pix[i * (d.WIDTH / 8) + m]?) ∧
        frame[1 + i * (1 + d.WIDTH / 8 + 1) + 1 + d.WIDTH / 8]? =
          spi[1 + i * (1 + d.WIDTH / 8 + 1) + 1 + d.WIDTH / 8]?) ∧
      frame[1 + d.HEIGHT * (1 + d.WIDTH / 8 + 1)]? =
        spi[1 + d.HEIGHT * (1 + d.WIDTH / 8 + 1)]? := by
  obtain ⟨d1, frame, h⟩ := refresh_total d miso hr hH
  obtain ⟨hlen, hhead, haddr, hdata, hrest⟩ := refresh_frame d d1 miso frame spi pix h hspi hpix
  have htl : transferLength d = 1 + d.HEIGHT * (1 + d.WIDTH / 8 + 1) + 1 := by
    unfold transferLength
    rw [Nat.mod_eq_of_lt hfit, frame_length_of_dvd _ _ h8]
  have hoff : ∀ i, lineOffset d.WIDTH i = 1 + i * (1 + d.WIDTH / 8 + 1) :=
    fun i => lineOffset_of_dvd _ i h8
  have hmono : ∀ i j, i < j →
      (i + 1) * (1 + d.WIDTH / 8 + 1) ≤ j * (1 + d.WIDTH / 8 + 1) :=
    fun i j hij => Nat.mul_le_mul_right _ hij
  have hsucc : ∀ i, (i + 1) * (1 + d.WIDTH / 8 + 1) =
      i * (1 + d.WIDTH / 8 + 1) + (1 + d.WIDTH / 8 + 1) := by
    intro i; rw [Nat.add_mul, Nat.one_mul]
  have hle : ∀ i j, i ≤ j → i * (1 + d.WIDTH / 8 + 1) ≤ j * (1 + d.WIDTH / 8 + 1) :=
    fun i j hij => Nat.mul_le_mul_right _ hij
  rw [htl] at hhead haddr hdata hrest
  refine ⟨d1, frame, h, by rw [hlen, htl], ?_, ?_, ?_⟩
  · rw [hhead (by omega), header_byte _ hr.2.2]
  · intro i hi
    have h1 := hmono i d.HEIGHT hi
    have h2 := hsucc i
    refine ⟨?_, ?_, ?_⟩
    · have := haddr i hi (by rw [hoff]; omega)
      rw [hoff] at this
      exact this
    · intro m hm
      have := hdata i m hi hm (by rw [hoff]; omega)
      rw [hoff] at this
      exact this
    · apply hrest _ (by omega) (by omega)
      intro j hj
      rw [hoff]
      rcases Nat.lt_or_ge i j with hij | hij
      · left
        have := hmono i j hij
        omega
      · right
        have := hle j i hij
        omega
  · apply hrest _ (by omega) (by omega)
    intro j hj
    rw [hoff]
    right
    have := hmono j d.HEIGHT hj
    have := hsucc j
    omega

theorem begin_pix (d0 : Display) (g1 g2 : Nat → Nat) :
    (begin d0 (some g1) (some g2)).2.sharpmem_buffer =
      some ((List.range (d0.WIDTH * d0.HEIGHT / 8)).map (fun i => g1 i % 256)) := rfl

theorem begin_spi (d0 : Display) (g1 g2 : Nat → Nat) :
    (begin d0 (some g1) (some g2)).2.sharpmem_spi_buffer =
      some ((List.range (d0.WIDTH * d0.HEIGHT / 8 + 3 + 2 * d0.HEIGHT + 240)).map
        (fun i => g2 i % 256)) := rfl

set_option maxRecDepth 100000 in
/-- C3, as stated, fails: for the zeroed 8 x 2 panel the frame has 8 bytes,
one trailing byte after each line's data and one more at the end, not the 6
bytes `[header, 128, 0x00, 64, 0x00, 0x00]`. -/
theorem C3_counterexample :
    (refresh panel8x2 (fun _ => 0)).map Prod.snd = some [0xC0, 128, 0, 0, 64, 0, 0, 0] ∧
    (refresh panel8x2 (fun _ => 0)).map Prod.snd ≠
      some [SHARPMEM_BIT_WRITECMD ||| panel8x2._sharpmem_vcom, 128, 0x00, 64, 0x00, 0x00] := by
  decide

set_option maxRecDepth 100000 in
/-- C3 on the 16 x 8 panel: a frame of `1 + 8 * 4 + 1 = 34` bytes with header
`0xC0`. -/
theorem C3_frame_layout_witness :
    ∃ d1 frame, refresh panel16x8 (fun _ => 0xff) = some (d1, frame) ∧
      frame.length = 34 ∧ frame[0]? = some 0xC0 := by
  obtain ⟨d1, frame, h, hlen, hhead, _⟩ :=
    C3_frame_layout panel16x8 (List.replicate 16 0)
      ((List.range 275).map (fun k => k % 256)) (fun _ => 0xff)
      rfl rfl (by decide) (by decide) (by decide) (by decide)
  exact ⟨d1, frame, h, hlen, hhead⟩

/-- C4 (amended): for a panel of height at most 255 whose frame length fits
the 16-bit length argument, the number of bytes one `refresh` transfers is
`2 + 2 * HEIGHT + WIDTH * HEIGHT / 8`, which is `1 + HEIGHT * (1 + WIDTH / 8 + 1) + 1`
when the width is a multiple of 8; the scratch buffer `begin` allocates has
`WIDTH * HEIGHT / 8 + 3 + 2 * HEIGHT + 240` bytes, 241 more than are
transferred.  (For 320 x 240: 10082 bytes transferred, 10323 allocated.) -/
theorem C4_transfer_length (d0 : Display) (g1 g2 miso : Nat → Nat)
    (hH : d0.HEIGHT ≤ 255)
    (hfit : 2 + 2 * d0.HEIGHT + d0.WIDTH * d0.HEIGHT / 8 < 65536) :
    ∃ spi d1 frame,
      (begin d0 (some g1) (some g2)).2.sharpmem_spi_buffer = some spi ∧
      refresh (begin d0 (some g1) (some g2)).2 miso = some (d1, frame) ∧
      frame.length = 2 + 2 * d0.HEIGHT + d0.WIDTH * d0.HEIGHT / 8 ∧
      spi.length = d0.WIDTH * d0.HEIGHT / 8 + 3 + 2 * d0.HEIGHT + 240 ∧
      spi.length = frame.length + 241 ∧
      (8 ∣ d0.WIDTH → frame.length = 1 + d0.HEIGHT * (1 + d0.WIDTH / 8 + 1) + 1) := by
  have hr := begin_ready d0 g1 g2
  obtain ⟨d1, frame, h⟩ := refresh_total (begin d0 (some g1) (some g2)).2 miso hr hH
  obtain ⟨hlen, _⟩ := refresh_frame _ d1 miso frame _ _ h
    (begin_spi d0 g1 g2) (begin_pix d0 g1 g2)
  have htl : transferLength (begin d0 (some g1) (some g2)).2 =
      2 + 2 * d0.HEIGHT + d0.WIDTH * d0.HEIGHT / 8 := by
    show (2 + 2 * d0.HEIGHT + d0.WIDTH * d0.HEIGHT / 8) % 65536 = _
    exact Nat.mod_eq_of_lt hfit
  rw [htl] at hlen
  refine ⟨_, d1, frame, begin_spi d0 g1 g2, h, hlen, by simp, by simp; omega, ?_⟩
  intro h8
  rw [hlen, frame_length_of_dvd _ _ h8]

/-- C4 at 320 x 240: 10082 bytes are transferred and 10323 allocated. -/
theorem C4_transfer_length_witness :
    ∃ spi d1 frame,
      panel320x240.sharpmem_spi_buffer = some spi ∧
      refresh panel320x240 (fun _ => 0) = some (d1, frame) ∧
      frame.length = 10082 ∧ spi.length = 10323 := by
  obtain ⟨spi, d1, frame, hs, h, hl, hsl, _⟩ :=
    C4_transfer_length (construct 320 240) (fun _ => 0) (fun _ => 0) (fun _ => 0)
      (by decide) (by decide)
  exact ⟨spi, d1, frame, hs, h, hl, hsl⟩

/-- C4, as stated, fails: for the 320 x 240 panel `refresh` transfers 10082
bytes and `begin` allocates a scratch buffer of 10323 bytes; neither is
`1 + 240 * (1 + 320 / 8) + 1 = 9842`. -/
theorem C4_counterexample :
    ∃ spi d1 frame,
      panel320x240.sharpmem_spi_buffer = some spi ∧
      refresh panel320x240 (fun _ => 0) = some (d1, frame) ∧
      frame.length ≠ 1 + 240 * (1 + 320 / 8) + 1 ∧
      spi.length ≠ 1 + 240 * (1 + 320 / 8) + 1 ∧
      frame.length ≠ spi.length := by
  have hr : Ready panel320x240 := begin_ready (construct 320 240) (fun _ => 0) (fun _ => 0)
  obtain ⟨d1, frame, h⟩ := refresh_total panel320x240 (fun _ => 0) hr (by decide)
  have hs : panel320x240.sharpmem_spi_buffer =
      some ((List.range 10323).map (fun _ => 0 % 256)) :=
    begin_spi (construct 320 240) (fun _ => 0) (fun _ => 0)
  have hp : panel320x240.sharpmem_buffer =
      some ((List.range 9600).map (fun _ => 0 % 256)) :=
    begin_pix (construct 320 240) (fun _ => 0) (fun _ => 0)
  obtain ⟨hlen, _⟩ := refresh_frame _ d1 _ frame _ _ h hs hp
  have htl : transferLength panel320x240 = 10082 := by decide
  rw [htl] at hlen
  refine ⟨_, d1, frame, hs, h, by omega, ?_, ?_⟩
  · rw [List.length_map, List.length_range]; omega
  · rw [hlen, List.length_map, List.length_range]; omega

/-! ## Two refreshes in a row -/

theorem ready_buffers (d : Display) (hr : Ready d) :
    ∃ pix spi, d.sharpmem_buffer = some pix ∧ d.sharpmem_spi_buffer = some spi := by
  obtain ⟨hp, hs, _⟩ := hr
  cases hpix : d.sharpmem_buffer with
  | none => rw [hpix] at hp; cases hp
  | some pix =>
    cases hspi : d.sharpmem_spi_buffer with
    | none => rw [hspi] at hs; cases hs
    | some spi => exact ⟨pix, spi, rfl, rfl⟩

theorem drawPixel_some (d d1 : Display) (x y : Int) (color : Nat)
    (h : drawPixel d x y color = some d1) :
    ∃ buf1, d1 = { d with sharpmem_buffer := buf1 } ∧
      buf1.map List.length = d.sharpmem_buffer.map List.length := by
  unfold drawPixel at h
  by_cases hcond : x < 0 ∨ x ≥ (_width d : Int) ∨ y < 0 ∨ y ≥ (_height d : Int)
  · rw [if_pos hcond] at h
    cases h
    exact ⟨d.sharpmem_buffer, rfl, rfl⟩
  · rw [if_neg hcond] at h
    cases hbuf : d.sharpmem_buffer with
    | none => rw [hbuf] at h; cases h
    | some buf =>
      rw [hbuf] at h
      dsimp only at h
      cases hb : buf[((rotate d x.toNat y.toNat).2 * d.WIDTH +
          (rotate d x.toNat y.toNat).1) / 8]? with
      | none => rw [hb] at h; cases h
      | some b =>
        rw [hb] at h
        dsimp only at h
        rw [set_lookup, clr_lookup] at h
        dsimp only at h
        by_cases hc : color ≠ 0
        · rw [if_pos hc] at h
          cases h
          exact ⟨_, rfl, by simp⟩
        · rw [if_neg hc] at h
          cases h
          exact ⟨_, rfl, by simp⟩

theorem drawPixel_total (d : Display) (x y : Int) (color : Nat) (hr : Ready d)
    (h8 : 8 ∣ d.WIDTH * d.HEIGHT) : ∃ d1, drawPixel d x y color = some d1 := by
  by_cases hcond : x < 0 ∨ x ≥ (_width d : Int) ∨ y < 0 ∨ y ≥ (_height d : Int)
  · exact ⟨d, by unfold drawPixel; rw [if_pos hcond]⟩
  · obtain ⟨pix, spi, hpix, _⟩ := ready_buffers d hr
    have hlen : pix.length = d.WIDTH * d.HEIGHT / 8 := by
      have := hr.1
      rw [hpix] at this
      simpa [pixelBufferSize] using this
    have hx : (x.toNat : Int) = x := Int.toNat_of_nonneg (by omega)
    have hy : (y.toNat : Int) = y := Int.toNat_of_nonneg (by omega)
    have hxw : x.toNat < _width d := by omega
    have hyh : y.toNat < _height d := by omega
    have hlt := byteIndex_lt d x.toNat y.toNat hxw hyh h8
    rw [← hlen] at hlt
    have hd := drawPixel_inbounds d pix x.toNat y.toNat color pix[byteIndex d x.toNat y.toNat]
      hpix hxw hyh (List.getElem?_eq_getElem hlt)
    rw [hx, hy] at hd
    exact ⟨_, hd⟩

theorem clearDisplayBuffer_some (d d1 : Display) (h : clearDisplayBuffer d = some d1) :
    ∃ buf1, d1 = { d with sharpmem_buffer := buf1 } ∧
      buf1.map List.length = d.sharpmem_buffer.map List.length := by
  unfold clearDisplayBuffer at h
  cases hbuf : d.sharpmem_buffer with
  | none => rw [hbuf] at h; cases h
  | some buf =>
    rw [hbuf] at h
    dsimp only at h
    cases hm : memset buf 0xff (d.WIDTH * d.HEIGHT / 8) with
    | none => rw [hm] at h; cases h
    | some buf1 =>
      rw [hm] at h
      cases h
      exact ⟨some buf1, rfl, by simp [memset_length buf buf1 _ _ hm]⟩

theorem ready_of_buffer (d : Display) (buf1 : Option (List Nat)) (hr : Ready d)
    (hl : buf1.map List.length = d.sharpmem_buffer.map List.length) :
    Ready { d with sharpmem_buffer := buf1 } := by
  obtain ⟨hp, hs, hv⟩ := hr
  exact ⟨hl.trans hp, hs, hv⟩

theorem clearDisplayBuffer_total (d : Display) (hr : Ready d) :
    ∃ d1, clearDisplayBuffer d = some d1 := by
  obtain ⟨pix, spi, hpix, _⟩ := ready_buffers d hr
  have hlen : pix.length = d.WIDTH * d.HEIGHT / 8 := by
    have := hr.1
    rw [hpix] at this
    simpa [pixelBufferSize] using this
  exact ⟨_, clearDisplayBuffer_eq d pix hpix (by omega)⟩

theorem clearDisplay_eq (d : Display) (miso : Nat → Nat) :
    clearDisplay d miso = (clearDisplayBuffer d).bind (fun d1 => refresh d1 miso) := by
  unfold clearDisplay clearDisplayBuffer
  cases d.sharpmem_buffer with
  | none => rfl
  | some buf =>
    dsimp only
    cases memset buf 0xff (d.WIDTH * d.HEIGHT / 8) with
    | none => rfl
    | some buf1 => rfl

/-- Two toggles give the polarity back. -/
theorem toggle_toggle (v : Nat) (hv : v = 0x00 ∨ v = SHARPMEM_BIT_VCOM) :
    (if (if v ≠ 0 then 0x00 else SHARPMEM_BIT_VCOM) ≠ 0 then 0x00 else SHARPMEM_BIT_VCOM) = v := by
  rcases hv with hv | hv <;> rw [hv] <;> decide

theorem step_spec (d d1 : Display) (op : Op) (h : step d op = some d1) :
    d1.WIDTH = d.WIDTH ∧ d1.HEIGHT = d.HEIGHT ∧ (Ready d → Ready d1) ∧
    d1._sharpmem_vcom =
      (if refreshCount [op] = 1 then
        (if d._sharpmem_vcom ≠ 0 then 0x00 else SHARPMEM_BIT_VCOM)
       else d._sharpmem_vcom) := by
  cases op with
  | drawPixel x y color =>
    obtain ⟨buf1, rfl, hl⟩ := drawPixel_some d d1 x y color h
    exact ⟨rfl, rfl, fun hr => ready_of_buffer d buf1 hr hl, rfl⟩
  | getPixel x y =>
    simp only [step, Option.map_eq_some'] at h
    obtain ⟨_, _, rfl⟩ := h
    exact ⟨rfl, rfl, id, rfl⟩
  | clearDisplayBuffer =>
    obtain ⟨buf1, rfl, hl⟩ := clearDisplayBuffer_some d d1 h
    exact ⟨rfl, rfl, fun hr => ready_of_buffer d buf1 hr hl, rfl⟩
  | clearDisplay miso =>
    simp only [step, Option.map_eq_some', clearDisplay_eq, Option.bind_eq_some] at h
    obtain ⟨⟨d1', frame⟩, ⟨d2, hc, hrf⟩, rfl⟩ := h
    obtain ⟨buf1, rfl, hl⟩ := clearDisplayBuffer_some d d2 hc
    obtain ⟨h1, h2, _, _, h5, _⟩ := refresh_state _ _ miso frame hrf
    exact ⟨h1, h2,
      fun hr => refresh_ready _ _ miso frame (ready_of_buffer d buf1 hr hl) hrf, h5⟩
  | refresh miso =>
    simp only [step, Option.map_eq_some'] at h
    obtain ⟨⟨d1', frame⟩, hrf, rfl⟩ := h
    obtain ⟨h1, h2, _, _, h5, _⟩ := refresh_state _ _ miso frame hrf
    exact ⟨h1, h2, fun hr => refresh_ready _ _ miso frame hr hrf, h5⟩

theorem step_total (d : Display) (op : Op) (hr : Ready d)
    (h8 : 8 ∣ d.WIDTH * d.HEIGHT) (hH : d.HEIGHT ≤ 255) : ∃ d1, step d op = some d1 := by
  cases op with
  | drawPixel x y color => exact drawPixel_total d x y color hr h8
  | getPixel x y =>
    by_cases hcond : x ≥ _width d ∨ y ≥ _height d
    · exact ⟨d, by simp only [step]; unfold getPixel; rw [if_pos hcond]; rfl⟩
    · obtain ⟨pix, spi, hpix, _⟩ := ready_buffers d hr
      have hlen : pix.length = d.WIDTH * d.HEIGHT / 8 := by
        have := hr.1
        rw [hpix] at this
        simpa [pixelBufferSize] using this
      have hlt := byteIndex_lt d x y (by omega) (by omega) h8
      rw [← hlen] at hlt
      have hg := getPixel_inbounds d pix x y pix[byteIndex d x y] hpix (by omega) (by omega)
        (List.getElem?_eq_getElem hlt)
      exact ⟨d, by simp only [step]; rw [hg]; rfl⟩
  | clearDisplayBuffer => exact clearDisplayBuffer_total d hr
  | clearDisplay miso =>
    obtain ⟨d2, hc⟩ := clearDisplayBuffer_total d hr
    obtain ⟨buf1, hd2, hl⟩ := clearDisplayBuffer_some d d2 hc
    have hr2 : Ready d2 := by rw [hd2]; exact ready_of_buffer d buf1 hr hl
    have hH2 : d2.HEIGHT ≤ 255 := by rw [hd2]; exact hH
    obtain ⟨d1, frame, hrf⟩ := refresh_total d2 miso hr2 hH2
    exact ⟨d1, by simp only [step, clearDisplay_eq, hc, Option.some_bind, hrf]; rfl⟩
  | refresh miso =>
    obtain ⟨d1, frame, hrf⟩ := refresh_total d miso hr hH
    exact ⟨d1, by simp only [step, hrf]; rfl⟩

theorem refreshCount_cons (op : Op) (ops : List Op) :
    refreshCount (op :: ops) = refreshCount [op] + refreshCount ops := by
  cases op <;> simp [refreshCount] <;> omega

theorem refreshCount_single (op : Op) : refreshCount [op] = 0 ∨ refreshCount [op] = 1 := by
  cases op <;> simp [refreshCount]

theorem run_vcom : ∀ (ops : List Op) (d d1 : Display),
    (d._sharpmem_vcom = 0x00 ∨ d._sharpmem_vcom = SHARPMEM_BIT_VCOM) →
    run d ops = some d1 →
    d1._sharpmem_vcom =
      if refreshCount ops % 2 = 0 then d._sharpmem_vcom
      else (if d._sharpmem_vcom ≠ 0 then 0x00 else SHARPMEM_BIT_VCOM) := by
  intro ops
  induction ops with
  | nil =>
    intro d d1 _ h
    simp only [run, Option.some.injEq] at h
    subst h
    simp [refreshCount]
  | cons op ops ih =>
    intro d d1 hv h
    simp only [run, Option.bind_eq_some] at h
    obtain ⟨d2, hs, hrun⟩ := h
    obtain ⟨_, _, _, hv2⟩ := step_spec d d2 op hs
    have hv2' : d2._sharpmem_vcom = 0x00 ∨ d2._sharpmem_vcom = SHARPMEM_BIT_VCOM := by
      rw [hv2]
      rcases hv with hv | hv <;> rw [hv] <;> split <;> simp [SHARPMEM_BIT_VCOM]
    have := ih d2 d1 hv2' hrun
    rw [this, refreshCount_cons, hv2]
    rcases refreshCount_single op with h0 | h1
    · rw [h0]
      simp
    · rw [h1]
      simp only [if_true]
      rw [toggle_toggle _ hv]
      have : (1 + refreshCount ops) % 2 = 0 ↔ ¬ refreshCount ops % 2 = 0 := by omega
      by_cases hp : refreshCount ops % 2 = 0
      · have hq : ¬ (1 + refreshCount ops) % 2 = 0 := by omega
        rw [if_pos hp, if_neg hq]
      · have hq : (1 + refreshCount ops) % 2 = 0 := by omega
        rw [if_neg hp, if_pos hq]

theorem run_total : ∀ (ops : List Op) (d : Display), Ready d →
    8 ∣ d.WIDTH * d.HEIGHT → d.HEIGHT ≤ 255 → ∃ d1, run d ops = some d1 := by
  intro ops
  induction ops with
  | nil => intro d _ _ _; exact ⟨d, rfl⟩
  | cons op ops ih =>
    intro d hr h8 hH
    obtain ⟨d2, hs⟩ := step_total d op hr h8 hH
    obtain ⟨hW, hHt, hrd, _⟩ := step_spec d d2 op hs
    obtain ⟨d1, h1⟩ := ih d2 (hrd hr) (by rw [hW, hHt]; exact h8) (by rw [hHt]; exact hH)
    exact ⟨d1, by simp only [run, hs, Option.some_bind, h1]⟩

/-! ## Polarity, frame conditions and begin -/

theorem begin_vcom (d0 : Display) (m1 m2 : Option (Nat → Nat)) :
    (begin d0 m1 m2).2._sharpmem_vcom = SHARPMEM_BIT_VCOM := by
  cases m1 <;> rfl

/-- C6: the polarity is set (`0x40`) after `begin`; every `refresh` forms its
header byte from the polarity it finds and then flips it once; after `begin`
followed by any sequence of operations making `n` `refresh` calls the polarity
is `0x40` when `n` is even and `0x00` when `n` is odd; `drawPixel`, `getPixel`
and `clearDisplayBuffer` do not change it.  On a panel whose pixel count is a
multiple of 8 and whose height is at most 255, after a `begin` whose
allocations succeed, every such sequence runs to its end. -/
theorem C6_polarity (d0 : Display) (m1 m2 : Option (Nat → Nat)) :
    (begin d0 m1 m2).2._sharpmem_vcom = SHARPMEM_BIT_VCOM ∧
    (∀ (ops : List Op) (d1 : Display), run (begin d0 m1 m2).2 ops = some d1 →
      d1._sharpmem_vcom = if refreshCount ops % 2 = 0 then SHARPMEM_BIT_VCOM else 0x00) ∧
    (∀ (d d1 : Display) (miso : Nat → Nat) (frame : List Nat),
      refresh d miso = some (d1, frame) →
        (0 < transferLength d →
          frame[0]? = some ((SHARPMEM_BIT_WRITECMD ||| d._sharpmem_vcom) % 256)) ∧
        d1._sharpmem_vcom = if d._sharpmem_vcom ≠ 0 then 0x00 else SHARPMEM_BIT_VCOM) ∧
    (∀ (d d1 : Display) (x y : Int) (color : Nat),
      drawPixel d x y color = some d1 → d1._sharpmem_vcom = d._sharpmem_vcom) ∧
    (∀ (d d1 : Display) (x y : Nat),
      step d (Op.getPixel x y) = some d1 → d1._sharpmem_vcom = d._sharpmem_vcom) ∧
    (∀ (d d1 : Display),
      clearDisplayBuffer d = some d1 → d1._sharpmem_vcom = d._sharpmem_vcom) ∧
    (∀ (g1 g2 : Nat → Nat) (ops : List Op), m1 = some g1 → m2 = some g2 →
      8 ∣ d0.WIDTH * d0.HEIGHT → d0.HEIGHT ≤ 255 →
        ∃ d1, run (begin d0 m1 m2).2 ops = some d1) := by
  refine ⟨begin_vcom d0 m1 m2, ?_, ?_, ?_, ?_, ?_, ?_⟩
  · intro ops d1 h
    have hv := begin_vcom d0 m1 m2
    have := run_vcom ops _ d1 (Or.inr hv) h
    rw [this, hv]
    rfl
  · intro d d1 miso frame h
    obtain ⟨spi, pix, _, _, hs, hp, _⟩ := refresh_some d d1 miso frame h
    exact ⟨(refresh_frame d d1 miso frame spi pix h hs hp).2.1,
      (refresh_state d d1 miso frame h).2.2.2.2.1⟩
  · intro d d1 x y color h
    obtain ⟨buf1, rfl, _⟩ := drawPixel_some d d1 x y color h
    rfl
  · intro d d1 x y h
    exact (step_spec d d1 _ h).2.2.2
  · intro d d1 h
    obtain ⟨buf1, rfl, _⟩ := clearDisplayBuffer_some d d1 h
    rfl
  · intro g1 g2 ops h1 h2 h8 hH
    subst h1 h2
    exact run_total ops _ (begin_ready d0 g1 g2) h8 hH

set_option maxRecDepth 100000 in
/-- C6 on the 8 x 2 panel: a drawn pixel, three refreshes (one of them inside
`clearDisplay`) and a buffer clear leave the polarity at `0x00`. -/
theorem C6_polarity_witness :
    ∃ d1, run panel8x2
        [Op.drawPixel 1 1 1, Op.refresh (fun _ => 0), Op.clearDisplayBuffer,
         Op.clearDisplay (fun _ => 0), Op.getPixel 0 0, Op.refresh (fun _ => 0)] = some d1 ∧
      d1._sharpmem_vcom = 0x00 := by
  obtain ⟨_, hrun, _, _, _, _, htot⟩ := C6_polarity (construct 8 2) zeroHeap zeroHeap
  obtain ⟨d1, h⟩ := htot (fun _ => 0) (fun _ => 0)
    [Op.drawPixel 1 1 1, Op.refresh (fun _ => 0), Op.clearDisplayBuffer,
     Op.clearDisplay (fun _ => 0), Op.getPixel 0 0, Op.refresh (fun _ => 0)]
    rfl rfl (by decide) (by decide)
  exact ⟨d1, h, hrun _ d1 h⟩

/-- C9 (amended): in the staged strategy, the one the source builds,
`refresh` and `getPixel` leave the pixel buffer, its length and every byte, as
it is; an operation after which the pixel buffer differs is a `drawPixel`, a
`clearDisplayBuffer` or a `clearDisplay`.  Nothing is said of the streaming
strategy. -/
theorem C9_pixel_buffer_kept :
    (∀ (d d1 : Display) (miso : Nat → Nat) (frame : List Nat),
      refresh d miso = some (d1, frame) → d1.sharpmem_buffer = d.sharpmem_buffer) ∧
    (∀ (d d1 : Display) (x y : Nat),
      step d (Op.getPixel x y) = some d1 → d1.sharpmem_buffer = d.sharpmem_buffer) ∧
    (∀ (d d1 : Display) (op : Op), step d op = some d1 →
      d1.sharpmem_buffer ≠ d.sharpmem_buffer →
        (∃ x y color, op = Op.drawPixel x y color) ∨ op = Op.clearDisplayBuffer ∨
        (∃ miso, op = Op.clearDisplay miso)) := by
  have hrefresh : ∀ (d d1 : Display) (miso : Nat → Nat) (frame : List Nat),
      refresh d miso = some (d1, frame) → d1.sharpmem_buffer = d.sharpmem_buffer :=
    fun d d1 miso frame h => (refresh_state d d1 miso frame h).2.2.2.1
  have hget : ∀ (d d1 : Display) (x y : Nat),
      step d (Op.getPixel x y) = some d1 → d1.sharpmem_buffer = d.sharpmem_buffer := by
    intro d d1 x y h
    simp only [step, Option.map_eq_some'] at h
    obtain ⟨_, _, rfl⟩ := h
    rfl
  refine ⟨hrefresh, hget, ?_⟩
  intro d d1 op h hne
  cases op with
  | drawPixel x y color => exact Or.inl ⟨x, y, color, rfl⟩
  | getPixel x y => exact absurd (hget d d1 x y h) hne
  | clearDisplayBuffer => exact Or.inr (Or.inl rfl)
  | clearDisplay miso => exact Or.inr (Or.inr ⟨miso, rfl⟩)
  | refresh miso =>
    simp only [step, Option.map_eq_some'] at h
    obtain ⟨⟨d1', frame⟩, hrf, rfl⟩ := h
    exact absurd (hrefresh d d1' miso frame hrf) hne

set_option maxRecDepth 100000 in
/-- C9 on the 16 x 8 panel with one pixel set: `refresh` runs and the pixel
buffer is the same afterwards. -/
theorem C9_pixel_buffer_kept_witness :
    ∃ d0 d1 frame, drawPixel panel16x8 3 5 1 = some d0 ∧
      refresh d0 (fun _ => 0xff) = some (d1, frame) ∧
      d1.sharpmem_buffer = d0.sharpmem_buffer ∧
      d0.sharpmem_buffer = some [0, 0, 0, 0, 0, 0, 0, 0x04, 0, 0, 0, 0, 0, 0, 0, 0] := by
  obtain ⟨d0, h0⟩ := drawPixel_total panel16x8 3 5 1 (by decide) (by decide)
  have hr0 : Ready d0 := (step_spec panel16x8 d0 (Op.drawPixel 3 5 1) h0).2.2.1 (by decide)
  have hH0 : d0.HEIGHT ≤ 255 := by
    rw [(step_spec panel16x8 d0 (Op.drawPixel 3 5 1) h0).2.1]
    decide
  obtain ⟨d1, frame, h1⟩ := refresh_total d0 (fun _ => 0xff) hr0 hH0
  refine ⟨d0, d1, frame, h0, h1, C9_pixel_buffer_kept.1 d0 d1 _ frame h1, ?_⟩
  have : (drawPixel panel16x8 3 5 1).map (fun d => d.sharpmem_buffer) =
      some (some [0, 0, 0, 0, 0, 0, 0, 0x04, 0, 0, 0, 0, 0, 0, 0, 0]) := by decide
  rw [h0] at this
  simpa using this

set_option maxRecDepth 100000 in
/-- C9, as stated for either strategy, fails: the streaming `refresh` hands
the pixel buffer itself to the in-place `SPI.transfer`, which stores the bytes
read back over it.  On the 8 x 2 panel of the streaming build, with the bus
reading back `0xff`, the pixel buffer `[0, 0]` is `[0xff, 0xff]` afterwards. -/
theorem C9_counterexample :
    streamPanel8x2.sharpmem_buffer = some [0, 0] ∧
    (refreshStreaming streamPanel8x2 (fun _ => 0xff)).map (fun r => r.1.sharpmem_buffer) =
      some (some [0xff, 0xff]) ∧
    (refreshStreaming streamPanel8x2 (fun _ => 0xff)).map (fun r => r.1.sharpmem_buffer) ≠
      some streamPanel8x2.sharpmem_buffer := by
  decide

/-- C10, at the failing input: when the pixel-buffer allocation succeeds and
the scratch-buffer allocation fails, `begin` returns true, leaves the scratch
pointer null, and the next `refresh` dereferences it. -/
theorem C10_begin_scratch_failure (d0 : Display) (g1 miso : Nat → Nat) :
    (begin d0 (some g1) none).1 = true ∧
    (begin d0 (some g1) none).2.sharpmem_spi_buffer = none ∧
    refresh (begin d0 (some g1) none).2 miso = none := by
  exact ⟨rfl, rfl, rfl⟩

set_option maxRecDepth 100000 in
/-- C8 at rotation 1 on the 16 x 8 panel, pixel `(3, 5)`: physical
`(16 - 1 - 5, 3) = (10, 3)`, byte `(3 * 16 + 10) / 8 = 7`, bit 2. -/
theorem C8_drawPixel_footprint_witness :
    (3 < _width panel16x8 ∧ 5 < _height panel16x8) ∧
    byteIndex panel16x8 3 5 = 7 ∧ bitIndex panel16x8 3 5 = 2 ∧
    ∃ buf1 b1, drawPixel panel16x8 3 5 1 =
        some { panel16x8 with sharpmem_buffer := some buf1 } ∧
      buf1[7]? = some b1 ∧ b1.testBit 2 = true := by
  obtain ⟨⟨buf1, b, b1, h, _, _, _, hb1, _, hbit, _⟩, _, hrot, _⟩ :=
    C8_drawPixel_footprint panel16x8 (List.replicate 16 0) 3 5 1 rfl (by decide) (by decide)
      (Or.inr ⟨by decide, by decide⟩)
  have e1 : byteIndex panel16x8 3 5 = 7 := by decide
  have e2 : bitIndex panel16x8 3 5 = 2 := by decide
  rw [e1] at hb1
  rw [e2] at hbit
  exact ⟨⟨by decide, by decide⟩, e1, e2, buf1, b1, h, hb1, by simpa using hbit⟩


/-! ## The line-address table -/

theorem lineNumberLookup_involutive (i : Nat) (hi : i < 256) :
    ∃ a, lineNumberLookup[i]? = some a ∧ lineNumberLookup[a]? = some i := by
  interval_cases i <;> exact ⟨_, rfl, rfl⟩

/-- C12: the line-address table is an involution on byte values: for every
`i` in 0..255 the entry `lineNumberLookup[i]` is a byte and
`lineNumberLookup[lineNumberLookup[i]] = i`. -/
theorem C12_lookup_involution (i : Nat) (hi : i < 256) :
    ∃ a, a < 256 ∧ lineNumberLookup[i]? = some a ∧ lineNumberLookup[a]? = some i := by
  obtain ⟨a, h1, h2⟩ := lineNumberLookup_involutive i hi
  exact ⟨a, lineNumberLookup_lt i a h1, h1, h2⟩

/-- C12 at 1: `1 -> 128 -> 1`. -/
theorem C12_lookup_involution_witness :
    ∃ a, a < 256 ∧ lineNumberLookup[1]? = some a ∧ lineNumberLookup[a]? = some 1 ∧ a = 128 := by
  obtain ⟨a, hlt, h1, h2⟩ := C12_lookup_involution 1 (by decide)
  have h128 : lineNumberLookup[1]? = some 128 := rfl
  rw [h1] at h128
  exact ⟨a, hlt, h1, h2, Option.some.inj h128⟩

/-- C15: the table has exactly 256 entries and entry `i` is the 8-bit reversal
of `i`: bit `k` of the entry equals bit `7 - k` of `i`, for `k` in 0..7, and the
entry is a byte. -/
theorem C15_lookup_bit_reversal :
    lineNumberLookup.length = 256 ∧
    ∀ i, i < 256 → ∃ a, lineNumberLookup[i]? = some a ∧ a < 256 ∧
      ∀ k, k < 8 → a.testBit k = i.testBit (7 - k) := by
  refine ⟨rfl, ?_⟩
  intro i hi
  interval_cases i <;> exact ⟨_, rfl, by decide, by decide⟩

/-- C15 at 6 = 0b00000110: the entry is 0b01100000 = 96. -/
theorem C15_lookup_bit_reversal_witness :
    ∃ a, lineNumberLookup[6]? = some a ∧ a = 96 ∧ a.testBit 5 = Nat.testBit 6 2 := by
  obtain ⟨a, ha, _, hbits⟩ := C15_lookup_bit_reversal.2 6 (by decide)
  have h96 : a = 96 := by
    have : lineNumberLookup[6]? = some 96 := rfl
    rw [ha] at this
    exact Option.some.inj this
  exact ⟨a, ha, h96, hbits 5 (by decide)⟩


/-! ## Size of the pixel buffer -/

/-- C11 (amended): for every panel width and height, the pixel buffer `begin`
allocates has `WIDTH * HEIGHT / 8` bytes, rounded down, and `clearDisplayBuffer`
fills exactly that many bytes with `0xff`; this is `ceil (WIDTH * HEIGHT / 8)`
when `WIDTH * HEIGHT` is a multiple of 8. -/
theorem C11_pixel_buffer_length (d0 : Display) (g1 g2 : Nat → Nat) :
    ∃ buf, (begin d0 (some g1) (some g2)).2.sharpmem_buffer = some buf ∧
      buf.length = d0.WIDTH * d0.HEIGHT / 8 ∧
      clearDisplayBuffer (begin d0 (some g1) (some g2)).2 =
        some { (begin d0 (some g1) (some g2)).2 with
          sharpmem_buffer := some (List.replicate (d0.WIDTH * d0.HEIGHT / 8) 0xff) } ∧
      (8 ∣ d0.WIDTH * d0.HEIGHT → buf.length = (d0.WIDTH * d0.HEIGHT + 7) / 8) := by
  have hlen : ((List.range (d0.WIDTH * d0.HEIGHT / 8)).map (fun i => g1 i % 256)).length =
      d0.WIDTH * d0.HEIGHT / 8 := by
    rw [List.length_map, List.length_range]
  refine ⟨_, begin_pix d0 g1 g2, hlen, ?_, ?_⟩
  · rw [clearDisplayBuffer_eq _ _ (begin_pix d0 g1 g2) (by rw [hlen]; exact Nat.le_refl _)]
    have hdrop : List.drop (d0.WIDTH * d0.HEIGHT / 8)
        ((List.range (d0.WIDTH * d0.HEIGHT / 8)).map (fun i => g1 i % 256)) = [] :=
      List.drop_of_length_le (by rw [hlen])
    show some _ = some _
    congr 2
    show some (_ ++ List.drop (d0.WIDTH * d0.HEIGHT / 8) _) = some _
    rw [hdrop, List.append_nil]
    rfl
  · intro h8
    rw [hlen]
    obtain ⟨k, hk⟩ := h8
    rw [hk]
    omega

/-- C11, as stated, fails: the 4 x 3 panel gets a pixel buffer of
`4 * 3 / 8 = 1` byte, while `ceil (12 / 8) = 2`. -/
theorem C11_counterexample :
    panel4x3.sharpmem_buffer.map List.length = some 1 ∧
    panel4x3.sharpmem_buffer.map List.length ≠
      some ((panel4x3.WIDTH * panel4x3.HEIGHT + 7) / 8) := by
  decide

/-- C11 on the 16 x 8 panel: 16 bytes. -/
theorem C11_pixel_buffer_length_witness :
    ∃ buf, (begin (construct 16 8) zeroHeap zeroHeap).2.sharpmem_buffer = some buf ∧
      buf.length = 16 ∧ buf.length = (16 * 8 + 7) / 8 := by
  obtain ⟨buf, hb, hl, _, hc⟩ := C11_pixel_buffer_length (construct 16 8) (fun _ => 0) (fun _ => 0)
  exact ⟨buf, hb, hl, hc (by decide)⟩

/-! ## Distinct pixels -/

theorem rotate_injective (d : Display) (x1 y1 x2 y2 : Nat)
    (hx1 : x1 < _width d) (hy1 : y1 < _height d) (hx2 : x2 < _width d) (hy2 : y2 < _height d)
    (h : rotate d x1 y1 = rotate d x2 y2) : x1 = x2 ∧ y1 = y2 := by
  unfold rotate at h
  unfold _width at hx1 hx2
  unfold _height at hy1 hy2
  split at h <;> simp_all <;> omega

theorem div_mul_unique (c a b r1 r2 : Nat) (h1 : r1 < c) (h2 : r2 < c)
    (h : a * c + r1 = b * c + r2) : a = b ∧ r1 = r2 := by
  have hab : a = b := by
    rcases Nat.lt_trichotomy a b with hlt | heq | hgt
    · have := Nat.mul_le_mul_right c (Nat.succ_le_of_lt hlt)
      rw [Nat.succ_mul] at this
      omega
    · exact heq
    · have := Nat.mul_le_mul_right c (Nat.succ_le_of_lt hgt)
      rw [Nat.succ_mul] at this
      omega
  subst hab
  exact ⟨rfl, by omega⟩

theorem byteIndex_of_dvd (d : Display) (x y : Nat) (h8 : 8 ∣ d.WIDTH) :
    byteIndex d x y = (rotate d x y).2 * (d.WIDTH / 8) + (rotate d x y).1 / 8 := by
  unfold byteIndex
  obtain ⟨c, hc⟩ := h8
  rw [hc, Nat.mul_div_cancel_left c (by decide : 0 < 8)]
  have : (rotate d x y).2 * (8 * c) = 8 * ((rotate d x y).2 * c) := by ring
  rw [this]
  omega

theorem pixel_address_injective (d : Display) (x1 y1 x2 y2 : Nat) (h8 : 8 ∣ d.WIDTH)
    (hx1 : x1 < _width d) (hy1 : y1 < _height d) (hx2 : x2 < _width d) (hy2 : y2 < _height d)
    (hbyte : byteIndex d x1 y1 = byteIndex d x2 y2)
    (hbit : bitIndex d x1 y1 = bitIndex d x2 y2) : x1 = x2 ∧ y1 = y2 := by
  rw [byteIndex_of_dvd d x1 y1 h8, byteIndex_of_dvd d x2 y2 h8] at hbyte
  unfold bitIndex at hbit
  have ha := rotate_fst_lt d x1 y1 hx1 hy1
  have hb := rotate_fst_lt d x2 y2 hx2 hy2
  have hc : ∀ p : Nat, p < d.WIDTH → p / 8 < d.WIDTH / 8 := by
    intro p hp
    obtain ⟨c, hc⟩ := h8
    rw [hc] at hp ⊢
    omega
  obtain ⟨h2, h1⟩ := div_mul_unique (d.WIDTH / 8) _ _ _ _ (hc _ ha) (hc _ hb) hbyte
  have h1' : (rotate d x1 y1).1 = (rotate d x2 y2).1 := by omega
  exact rotate_injective d x1 y1 x2 y2 hx1 hy1 hx2 hy2 (Prod.ext h1' h2)

/-- C13 (amended): for every panel whose width is a multiple of 8 and each
rotation, the map from in-bounds logical `(x, y)` to the buffer bit that
`drawPixel` and `getPixel` address (byte index `(y' * WIDTH + x') / 8`, bit
`x' mod 8`) is injective: no two distinct logical coordinates address the same
buffer bit. -/
theorem C13_address_injective (d : Display) (x1 y1 x2 y2 : Nat) (h8 : 8 ∣ d.WIDTH)
    (hx1 : x1 < _width d) (hy1 : y1 < _height d) (hx2 : x2 < _width d) (hy2 : y2 < _height d)
    (hne : (x1, y1) ≠ (x2, y2)) :
    (byteIndex d x1 y1, bitIndex d x1 y1) ≠ (byteIndex d x2 y2, bitIndex d x2 y2) := by
  intro h
  have hb := congrArg Prod.fst h
  have ht := congrArg Prod.snd h
  obtain ⟨e1, e2⟩ := pixel_address_injective d x1 y1 x2 y2 h8 hx1 hy1 hx2 hy2 hb ht
  exact hne (by rw [e1, e2])

/-- C13, as stated, fails: on the 4 x 3 panel at rotation 0 the in-bounds
pixels `(0, 0)` and `(0, 1)` both address bit 0 of byte 0, and a write to the
second shows in the first. -/
theorem C13_counterexample :
    (0 < _width panel4x3 ∧ 0 < _height panel4x3 ∧ 1 < _height panel4x3) ∧
    (byteIndex panel4x3 0 0, bitIndex panel4x3 0 0) = (0, 0) ∧
    (byteIndex panel4x3 0 1, bitIndex panel4x3 0 1) = (0, 0) ∧
    getPixel panel4x3 0 0 = some 0 ∧
    (drawPixel panel4x3 0 1 1).bind (fun d1 => getPixel d1 0 0) = some 1 := by
  decide

/-- C13 on the 16 x 8 panel at rotation 1: `(3, 5)` and `(3, 7)` lie in the
same byte and differ in the bit. -/
theorem C13_address_injective_witness :
    (byteIndex panel16x8 3 5, bitIndex panel16x8 3 5) ≠
      (byteIndex panel16x8 3 7, bitIndex panel16x8 3 7) ∧
    byteIndex panel16x8 3 5 = byteIndex panel16x8 3 7 :=
  ⟨C13_address_injective panel16x8 3 5 3 7 (by decide) (by decide) (by decide) (by decide)
    (by decide) (by decide), by decide⟩


/-- C16: for every panel whose width is a multiple of 8 (pixel buffer of the
`WIDTH * HEIGHT / 8` bytes `begin` allocates, any content), every rotation and
every two distinct in-bounds logical coordinates `p` and `q`, `drawPixel` at
`p`, with either value, leaves what `getPixel` returns at `q` unchanged. -/
theorem C16_other_pixels_kept (d : Display) (buf : List Nat) (x1 y1 x2 y2 color : Nat)
    (hbuf : d.sharpmem_buffer = some buf) (hlen : buf.length = d.WIDTH * d.HEIGHT / 8)
    (h8 : 8 ∣ d.WIDTH)
    (hx1 : x1 < _width d) (hy1 : y1 < _height d) (hx2 : x2 < _width d) (hy2 : y2 < _height d)
    (hne : (x1, y1) ≠ (x2, y2)) :
    ∃ v, getPixel d x2 y2 = some v ∧
      (drawPixel d (x1 : Int) (y1 : Int) color).bind (fun d1 => getPixel d1 x2 y2) = some v := by
  have h8' : 8 ∣ d.WIDTH * d.HEIGHT := Dvd.dvd.mul_right h8 _
  have hlt1 : byteIndex d x1 y1 < buf.length := by
    rw [hlen]; exact byteIndex_lt d x1 y1 hx1 hy1 h8'
  have hlt2 : byteIndex d x2 y2 < buf.length := by
    rw [hlen]; exact byteIndex_lt d x2 y2 hx2 hy2 h8'
  have hb1 : buf[byteIndex d x1 y1]? = some buf[byteIndex d x1 y1] :=
    List.getElem?_eq_getElem hlt1
  have hb2 : buf[byteIndex d x2 y2]? = some buf[byteIndex d x2 y2] :=
    List.getElem?_eq_getElem hlt2
  refine ⟨_, getPixel_inbounds d buf x2 y2 _ hbuf hx2 hy2 hb2, ?_⟩
  rw [drawPixel_inbounds d buf x1 y1 color _ hbuf hx1 hy1 hb1, Option.some_bind]
  by_cases hi : byteIndex d x2 y2 = byteIndex d x1 y1
  · have hbit : bitIndex d x2 y2 ≠ bitIndex d x1 y1 := by
      intro hbit
      obtain ⟨e1, e2⟩ := pixel_address_injective d x2 y2 x1 y1 h8 hx2 hy2 hx1 hy1 hi hbit
      exact hne (by rw [e1, e2])
    have hset : (buf.set (byteIndex d x1 y1)
        (storedByte buf[byteIndex d x1 y1] (bitIndex d x1 y1) color))[byteIndex d x2 y2]? =
        some (storedByte buf[byteIndex d x1 y1] (bitIndex d x1 y1) color) := by
      rw [hi, List.getElem?_set_self hlt1]
    have hg := getPixel_inbounds
      { d with
        sharpmem_buffer :=
          some (buf.set (byteIndex d x1 y1)
            (storedByte buf[byteIndex d x1 y1] (bitIndex d x1 y1) color)) }
      _ x2 y2 _ rfl hx2 hy2 hset
    rw [hg]
    have hsame : ∀ (b : Option (List Nat)),
        bitIndex { d with sharpmem_buffer := b } x2 y2 = bitIndex d x2 y2 := fun _ => rfl
    rw [hsame, testBit_storedByte _ _ _ _ (bitIndex_lt d x1 y1) (bitIndex_lt d x2 y2),
      if_neg hbit]
    have hbytes : buf[byteIndex d x2 y2] = buf[byteIndex d x1 y1] := by
      have h1 : buf[byteIndex d x2 y2]? = buf[byteIndex d x1 y1]? :=
        congrArg (fun k => buf[k]?) hi
      rw [hb2, hb1] at h1
      exact Option.some.inj h1
    rw [hbytes]
  · have hset : (buf.set (byteIndex d x1 y1)
        (storedByte buf[byteIndex d x1 y1] (bitIndex d x1 y1) color))[byteIndex d x2 y2]? =
        some buf[byteIndex d x2 y2] := by
      rw [List.getElem?_set_ne (fun h => hi h.symm), hb2]
    have hg := getPixel_inbounds
      { d with
        sharpmem_buffer :=
          some (buf.set (byteIndex d x1 y1)
            (storedByte buf[byteIndex d x1 y1] (bitIndex d x1 y1) color)) }
      _ x2 y2 _ rfl hx2 hy2 hset
    rw [hg]
    rfl

/-- C16 on the 16 x 8 panel at rotation 1: `(3, 5)` and `(3, 7)` share a byte;
setting the first leaves the second dark. -/
theorem C16_other_pixels_kept_witness :
    ∃ v, getPixel panel16x8 3 7 = some v ∧
      (drawPixel panel16x8 3 5 1).bind (fun d1 => getPixel d1 3 7) = some v :=
  C16_other_pixels_kept panel16x8 (List.replicate 16 0) 3 5 3 7 1 rfl (by decide) (by decide)
    (by decide) (by decide) (by decide) (by decide) (by decide)

/-! ## The streaming branch -/

theorem SPI_transfer_at_some (buf buf1 data : List Nat) (off count : Nat) (miso : Nat → Nat)
    (h : SPI_transfer_at buf off count miso = some (buf1, data)) :
    off + count ≤ buf.length ∧ buf1.length = buf.length ∧ data.length = count ∧
    (∀ m, m < count → data[m]? = buf[off + m]?) ∧
    (∀ k, off + count ≤ k → buf1[k]? = buf[k]?) := by
  unfold SPI_transfer_at at h
  by_cases hl : off + count ≤ buf.length
  · rw [if_pos hl] at h
    cases h
    refine ⟨hl, ?_, ?_, ?_, ?_⟩
    · simp; omega
    · simp; omega
    · intro m hm
      rw [List.getElem?_take_of_lt hm, List.getElem?_drop]
    · intro k hk
      rw [List.getElem?_append_right (by simp; omega), List.getElem?_drop]
      congr 1
      simp
      omega
  · rw [if_neg hl] at h
    cases h

theorem SPI_transfer_at_total (buf : List Nat) (off count : Nat) (miso : Nat → Nat)
    (h : off + count ≤ buf.length) : ∃ r, SPI_transfer_at buf off count miso = some r := by
  unfold SPI_transfer_at
  rw [if_pos h]
  exact ⟨_, rfl⟩

theorem streamLoop_step (W : Nat) (miso : Nat → Nat) (n i pos : Nat)
    (pix pix2 : List Nat) (out : List (List Nat))
    (h : streamLoop W miso (n + 1) i pos pix = some (pix2, out)) :
    ∃ a pix1 data chunks, lineNumberLookup[i + 1]? = some a ∧
      SPI_transfer_at pix (i * (W / 8)) (W / 8) (fun k => miso (pos + 1 + k)) =
        some (pix1, data) ∧
      streamLoop W miso n (i + 1) (pos + 1 + W / 8 + 1) pix1 = some (pix2, chunks) ∧
      out = [a % 256] :: data :: [0x00] :: chunks := by
  rw [streamLoop] at h
  cases ha : lineNumberLookup[i + 1]? with
  | none => rw [ha] at h; cases h
  | some a =>
    rw [ha] at h
    dsimp only at h
    cases h1 : SPI_transfer_at pix (i * (W / 8)) (W / 8) (fun k => miso (pos + 1 + k)) with
    | none => rw [h1] at h; cases h
    | some r1 =>
      obtain ⟨pix1, data⟩ := r1
      rw [h1] at h
      dsimp only at h
      cases h2 : streamLoop W miso n (i + 1) (pos + 1 + W / 8 + 1) pix1 with
      | none => rw [h2] at h; cases h
      | some r2 =>
        obtain ⟨pix2', chunks⟩ := r2
        rw [h2] at h
        dsimp only at h
        cases h
        exact ⟨a, pix1, data, chunks, rfl, rfl, h2, rfl⟩

theorem streamLoop_spec (W : Nat) (miso : Nat → Nat) :
    ∀ (n i pos : Nat) (pix pix2 : List Nat) (out : List (List Nat)),
      streamLoop W miso n i pos pix = some (pix2, out) →
      out.length = 3 * n ∧ pix2.length = pix.length ∧
      out.flatten.length = n * (W / 8 + 2) ∧
      (∀ t, t < n →
        out.flatten[t * (W / 8 + 2)]? = lineNumberLookup[i + t + 1]? ∧
        (∀ m, m < W / 8 →
          out.flatten[t * (W / 8 + 2) + 1 + m]? = pix[(i + t) * (W / 8) + m]?) ∧
        out.flatten[t * (W / 8 + 2) + 1 + W / 8]? = some 0) := by
  intro n
  induction n with
  | zero =>
    intro i pos pix pix2 out h
    rw [streamLoop] at h
    cases h
    refine ⟨rfl, rfl, by simp, ?_⟩
    intro t ht
    omega
  | succ n ih =>
    intro i pos pix pix2 out h
    obtain ⟨a, pix1, data, chunks, ha, h1, h2, rfl⟩ := streamLoop_step W miso n i pos pix pix2 out h
    obtain ⟨_, hl1, hdl, hdata, hkeep⟩ := SPI_transfer_at_some _ _ _ _ _ _ h1
    obtain ⟨hlen, hl2, hflen, hrest⟩ := ih (i + 1) _ pix1 pix2 chunks h2
    have ha256 : a % 256 = a := Nat.mod_eq_of_lt (lineNumberLookup_lt _ _ ha)
    have hflat : ([a % 256] :: data :: [0x00] :: chunks).flatten =
        ([a] ++ data ++ [0]) ++ chunks.flatten := by
      simp [List.flatten_cons, ha256]
    have hP : ([a] ++ data ++ [0]).length = W / 8 + 2 := by simp; omega
    have hsucc : ∀ t, (t + 1) * (W / 8 + 2) = (W / 8 + 2) + t * (W / 8 + 2) := by
      intro t; rw [Nat.add_mul, Nat.one_mul, Nat.add_comm]
    refine ⟨by simp; omega, by omega, ?_, ?_⟩
    · rw [hflat, List.length_append, hP, hflen, hsucc]
    · intro t ht
      rw [hflat]
      cases t with
      | zero =>
        refine ⟨?_, ?_, ?_⟩
        · rw [List.getElem?_append_left (by rw [hP]; omega)]
          simp [ha]
        · intro m hm
          rw [List.getElem?_append_left (by rw [hP]; omega), List.append_assoc,
            List.getElem?_append_right (by simp), List.getElem?_append_left (by simp; omega)]
          simp only [List.length_singleton, Nat.zero_mul, Nat.zero_add, Nat.add_zero,
            Nat.add_sub_cancel_left]
          rw [hdata m hm]
        · rw [List.getElem?_append_left (by rw [hP]; omega),
            List.getElem?_append_right (by simp; omega)]
          have e : 0 * (W / 8 + 2) + 1 + W / 8 - ([a] ++ data).length = 0 := by
            simp; omega
          rw [e]
          rfl
      | succ t =>
        obtain ⟨r1, r2, r3⟩ := hrest t (by omega)
        have hidx : i + (t + 1) = i + 1 + t := by omega
        refine ⟨?_, ?_, ?_⟩
        · rw [List.getElem?_append_right (by rw [hP, hsucc]; omega), hP, hsucc,
            Nat.add_sub_cancel_left, r1, hidx]
        · intro m hm
          have e : (W / 8 + 2) + t * (W / 8 + 2) + 1 + m - (W / 8 + 2) =
              t * (W / 8 + 2) + 1 + m := by omega
          rw [List.getElem?_append_right (by rw [hP, hsucc]; omega), hP, hsucc, e, r2 m hm,
            hidx]
          apply hkeep
          have := Nat.mul_le_mul_right (W / 8) (Nat.le_add_right (i + 1) t)
          rw [Nat.add_mul, Nat.one_mul] at this
          omega
        · have e : (W / 8 + 2) + t * (W / 8 + 2) + 1 + W / 8 - (W / 8 + 2) =
              t * (W / 8 + 2) + 1 + W / 8 := by omega
          rw [List.getElem?_append_right (by rw [hP, hsucc]; omega), hP, hsucc, e, r3]

theorem streamLoop_calls (W : Nat) (miso : Nat → Nat) :
    ∀ (n i pos : Nat) (pix pix2 : List Nat) (out : List (List Nat)),
      streamLoop W miso n i pos pix = some (pix2, out) →
      ∀ t, t < n →
        (∃ a, lineNumberLookup[i + t + 1]? = some a ∧ out[3 * t]? = some [a]) ∧
        (∃ data, out[3 * t + 1]? = some data ∧ data.length = W / 8) ∧
        out[3 * t + 2]? = some [0] := by
  intro n
  induction n with
  | zero => intro i pos pix pix2 out _ t ht; omega
  | succ n ih =>
    intro i pos pix pix2 out h t ht
    obtain ⟨a, pix1, data, chunks, ha, h1, h2, rfl⟩ := streamLoop_step W miso n i pos pix pix2 out h
    obtain ⟨_, _, hdl, _, _⟩ := SPI_transfer_at_some _ _ _ _ _ _ h1
    have ha256 : a % 256 = a := Nat.mod_eq_of_lt (lineNumberLookup_lt _ _ ha)
    cases t with
    | zero =>
      refine ⟨⟨a, ha, ?_⟩, ⟨data, by simp, hdl⟩, by simp⟩
      rw [ha256]
      simp
    | succ t =>
      obtain ⟨⟨b, hb, r1⟩, ⟨dat, r2, r2l⟩, r3⟩ := ih (i + 1) _ pix1 pix2 chunks h2 t (by omega)
      have hidx : i + (t + 1) = i + 1 + t := by omega
      have e0 : 3 * (t + 1) = 3 * t + 3 := by omega
      have e1 : 3 * (t + 1) + 1 = 3 * t + 1 + 3 := by omega
      have e2 : 3 * (t + 1) + 2 = 3 * t + 2 + 3 := by omega
      refine ⟨⟨b, by rw [hidx]; exact hb, ?_⟩, ⟨dat, ?_, r2l⟩, ?_⟩
      · rw [e0]
        simpa [List.getElem?_cons_succ] using r1
      · rw [e1]
        simpa [List.getElem?_cons_succ] using r2
      · rw [e2]
        simpa [List.getElem?_cons_succ] using r3

theorem streamLoop_total (W : Nat) (miso : Nat → Nat) :
    ∀ (n i pos : Nat) (pix : List Nat), i + n ≤ 255 → (i + n) * (W / 8) ≤ pix.length →
      ∃ r, streamLoop W miso n i pos pix = some r := by
  intro n
  induction n with
  | zero => intro i pos pix _ _; exact ⟨_, by rw [streamLoop]⟩
  | succ n ih =>
    intro i pos pix hi hb
    have hlt : i + 1 < lineNumberLookup.length := by rw [lineNumberLookup_length]; omega
    have ha : lineNumberLookup[i + 1]? = some lineNumberLookup[i + 1] :=
      List.getElem?_eq_getElem hlt
    have hfit : i * (W / 8) + W / 8 ≤ pix.length := by
      have := Nat.mul_le_mul_right (W / 8) (Nat.le_add_right (i + 1) n)
      rw [Nat.add_mul, Nat.one_mul] at this
      have e : i + 1 + n = i + (n + 1) := by omega
      rw [e] at this
      omega
    obtain ⟨⟨pix1, data⟩, h1⟩ :=
      SPI_transfer_at_total pix (i * (W / 8)) (W / 8) (fun k => miso (pos + 1 + k)) hfit
    obtain ⟨_, hl1, _⟩ := SPI_transfer_at_some _ _ _ _ _ _ h1
    obtain ⟨⟨pix2, chunks⟩, h2⟩ := ih (i + 1) (pos + 1 + W / 8 + 1) pix1 (by omega)
      (by rw [hl1]; have e : i + 1 + n = i + (n + 1) := by omega
          rw [e]; exact hb)
    refine ⟨(pix2, [lineNumberLookup[i + 1] % 256] :: data :: [0x00] :: chunks), ?_⟩
    rw [streamLoop, ha]
    simp only [h1, h2]

theorem refreshStreaming_some (d d1 : Display) (miso : Nat → Nat) (calls : List (List Nat))
    (h : refreshStreaming d miso = some (d1, calls)) :
    ∃ pix pix1 chunks, d.sharpmem_buffer = some pix ∧
      streamLoop d.WIDTH miso d.HEIGHT 0 1 pix = some (pix1, chunks) ∧
      calls = [(SHARPMEM_BIT_WRITECMD ||| d._sharpmem_vcom) % 256] :: chunks ++ [[0x00]] ∧
      d1 = TOGGLE_VCOM { d with sharpmem_buffer := some pix1 } := by
  unfold refreshStreaming at h
  cases hp : d.sharpmem_buffer with
  | none => rw [hp] at h; cases h
  | some pix =>
    rw [hp] at h
    dsimp only at h
    cases h1 : streamLoop d.WIDTH miso d.HEIGHT 0 1 pix with
    | none => rw [h1] at h; cases h
    | some r =>
      obtain ⟨pix1, chunks⟩ := r
      rw [h1] at h
      dsimp only at h
      cases h
      exact ⟨pix, pix1, chunks, rfl, h1, rfl, rfl⟩

theorem refreshStreaming_total_of_pix (d : Display) (pix : List Nat) (miso : Nat → Nat)
    (hpix : d.sharpmem_buffer = some pix) (hlen : pix.length = d.WIDTH * d.HEIGHT / 8)
    (hH : d.HEIGHT ≤ 255) : ∃ d1 calls, refreshStreaming d miso = some (d1, calls) := by
  obtain ⟨⟨pix1, chunks⟩, h1⟩ := streamLoop_total d.WIDTH miso d.HEIGHT 0 1 pix (by omega)
    (by rw [Nat.zero_add, hlen]; exact mul_div_le_div_mul _ _)
  refine ⟨TOGGLE_VCOM { d with sharpmem_buffer := some pix1 },
    [(SHARPMEM_BIT_WRITECMD ||| d._sharpmem_vcom) % 256] :: chunks ++ [[0x00]], ?_⟩
  unfold refreshStreaming
  simp only [hpix, h1]

theorem refreshStreaming_total (d : Display) (miso : Nat → Nat) (hr : Ready d)
    (hH : d.HEIGHT ≤ 255) : ∃ d1 calls, refreshStreaming d miso = some (d1, calls) := by
  obtain ⟨pix, spi, hpix, _⟩ := ready_buffers d hr
  have hlen : pix.length = d.WIDTH * d.HEIGHT / 8 := by
    have := hr.1
    rw [hpix] at this
    simpa [pixelBufferSize] using this
  obtain ⟨⟨pix1, chunks⟩, h1⟩ := streamLoop_total d.WIDTH miso d.HEIGHT 0 1 pix (by omega)
    (by rw [Nat.zero_add, hlen]; exact mul_div_le_div_mul _ _)
  refine ⟨TOGGLE_VCOM { d with sharpmem_buffer := some pix1 },
    [(SHARPMEM_BIT_WRITECMD ||| d._sharpmem_vcom) % 256] :: chunks ++ [[0x00]], ?_⟩
  unfold refreshStreaming
  simp only [hpix, h1]

theorem refreshStreaming_spec (d d1 : Display) (miso : Nat → Nat) (calls : List (List Nat))
    (pix : List Nat) (h : refreshStreaming d miso = some (d1, calls))
    (hpix : d.sharpmem_buffer = some pix) :
    calls.length = 3 * d.HEIGHT + 2 ∧
    calls.flatten.length = 1 + d.HEIGHT * (d.WIDTH / 8 + 2) + 1 ∧
    calls.flatten[0]? = some ((SHARPMEM_BIT_WRITECMD ||| d._sharpmem_vcom) % 256) ∧
    (∀ i, i < d.HEIGHT →
      calls.flatten[1 + i * (d.WIDTH / 8 + 2)]? = lineNumberLookup[i + 1]? ∧
      (∀ m, m < d.WIDTH / 8 →
        calls.flatten[1 + i * (d.WIDTH / 8 + 2) + 1 + m]? = pix[i * (d.WIDTH / 8) + m]?) ∧
      calls.flatten[1 + i * (d.WIDTH / 8 + 2) + 1 + d.WIDTH / 8]? = some 0) ∧
    calls.flatten[1 + d.HEIGHT * (d.WIDTH / 8 + 2)]? = some 0 := by
  obtain ⟨pix', pix1, chunks, hp, hloop, rfl, _⟩ := refreshStreaming_some d d1 miso calls h
  rw [hpix] at hp
  cases hp
  obtain ⟨hlen, _, hflen, hrest⟩ := streamLoop_spec _ _ _ _ _ _ _ _ hloop
  have hflat : ([(SHARPMEM_BIT_WRITECMD ||| d._sharpmem_vcom) % 256] :: chunks ++
      [[0x00]]).flatten =
      (SHARPMEM_BIT_WRITECMD ||| d._sharpmem_vcom) % 256 :: (chunks.flatten ++ [0]) := by
    simp [List.flatten_append]
  rw [hflat]
  refine ⟨by simp; omega, ?_, by simp, ?_, ?_⟩
  · rw [List.length_cons, List.length_append, hflen, List.length_singleton]
    omega
  · intro i hi
    obtain ⟨r1, r2, r3⟩ := hrest i hi
    have hs : (i + 1) * (d.WIDTH / 8 + 2) ≤ d.HEIGHT * (d.WIDTH / 8 + 2) :=
      Nat.mul_le_mul_right _ hi
    rw [Nat.add_mul, Nat.one_mul] at hs
    rw [Nat.zero_add] at r1
    have r2' : ∀ m, m < d.WIDTH / 8 →
        chunks.flatten[i * (d.WIDTH / 8 + 2) + 1 + m]? = pix[i * (d.WIDTH / 8) + m]? := by
      intro m hm
      have := r2 m hm
      rw [Nat.zero_add] at this
      exact this
    have e : ∀ k, 1 + k = k + 1 := fun k => Nat.add_comm 1 k
    refine ⟨?_, ?_, ?_⟩
    · rw [e, List.getElem?_cons_succ, List.getElem?_append_left (by omega), r1]
    · intro m hm
      have e2 : 1 + i * (d.WIDTH / 8 + 2) + 1 + m = (i * (d.WIDTH / 8 + 2) + 1 + m) + 1 := by
        omega
      rw [e2, List.getElem?_cons_succ, List.getElem?_append_left (by omega), r2' m hm]
    · have e3 : 1 + i * (d.WIDTH / 8 + 2) + 1 + d.WIDTH / 8 =
          (i * (d.WIDTH / 8 + 2) + 1 + d.WIDTH / 8) + 1 := by omega
      rw [e3, List.getElem?_cons_succ, List.getElem?_append_left (by omega), r3]
  · have e : 1 + d.HEIGHT * (d.WIDTH / 8 + 2) = d.HEIGHT * (d.WIDTH / 8 + 2) + 1 :=
      Nat.add_comm _ _
    rw [e, List.getElem?_cons_succ, List.getElem?_append_right (by omega), hflen,
      Nat.sub_self]
    simp

theorem lineNumberLookup_injective (i j a : Nat) (hi : i < 256) (hj : j < 256)
    (h1 : lineNumberLookup[i]? = some a) (h2 : lineNumberLookup[j]? = some a) : i = j := by
  obtain ⟨a1, e1, r1⟩ := lineNumberLookup_involutive i hi
  obtain ⟨a2, e2, r2⟩ := lineNumberLookup_involutive j hj
  rw [h1] at e1
  rw [h2] at e2
  cases e1
  cases e2
  rw [r1] at r2
  exact Option.some.inj r2

/-- C14 (amended): in the streaming strategy, in the state `begin` sets up in
that build (a pixel buffer of `WIDTH * HEIGHT / 8` bytes, any content, the
polarity `0x00` or `0x40`, no scratch buffer), one `refresh` of a panel of
height at most 255 issues exactly `3 * HEIGHT + 2` transfer calls: one for the
header byte; then for each line, in ascending order, one for the address byte,
one for the `WIDTH / 8` data bytes and one for a dummy byte `0x00`; and one
for the final dummy byte `0x00`. -/
theorem C14_streaming_calls (d : Display) (pix : List Nat) (miso : Nat → Nat)
    (hpix : d.sharpmem_buffer = some pix) (hplen : pix.length = d.WIDTH * d.HEIGHT / 8)
    (hv : d._sharpmem_vcom = 0x00 ∨ d._sharpmem_vcom = SHARPMEM_BIT_VCOM)
    (hH : d.HEIGHT ≤ 255) :
    ∃ d1 calls, refreshStreaming d miso = some (d1, calls) ∧
      calls.length = 3 * d.HEIGHT + 2 ∧
      calls[0]? = some [SHARPMEM_BIT_WRITECMD ||| d._sharpmem_vcom] ∧
      (∀ i, i < d.HEIGHT →
        (∃ a, lineNumberLookup[i + 1]? = some a ∧ calls[1 + 3 * i]? = some [a]) ∧
        (∃ data, calls[1 + 3 * i + 1]? = some data ∧ data.length = d.WIDTH / 8) ∧
        calls[1 + 3 * i + 2]? = some [0x00]) ∧
      calls[1 + 3 * d.HEIGHT]? = some [0x00] := by
  obtain ⟨d1, calls, h⟩ := refreshStreaming_total_of_pix d pix miso hpix hplen hH
  obtain ⟨pix', pix1, chunks, hp, hloop, hc, _⟩ := refreshStreaming_some d d1 miso calls h
  obtain ⟨hlen, _, _, _⟩ := streamLoop_spec _ _ _ _ _ _ _ _ hloop
  have hcalls := streamLoop_calls _ _ _ _ _ _ _ _ hloop
  have hget : ∀ k, k < 3 * d.HEIGHT → calls[1 + k]? = chunks[k]? := by
    intro k hk
    rw [hc, Nat.add_comm 1 k, List.cons_append, List.getElem?_cons_succ,
      List.getElem?_append_left (by omega)]
  refine ⟨d1, calls, h, (refreshStreaming_spec d d1 miso calls pix h hpix).1, ?_, ?_, ?_⟩
  · rw [hc, header_byte _ hv]
    simp
  · intro i hi
    obtain ⟨⟨a, ha, r1⟩, ⟨data, r2, r2l⟩, r3⟩ := hcalls i hi
    rw [Nat.zero_add] at ha
    refine ⟨⟨a, ha, ?_⟩, ⟨data, ?_, r2l⟩, ?_⟩
    · rw [hget _ (by omega)]; exact r1
    · rw [Nat.add_assoc, hget _ (by omega)]; exact r2
    · rw [Nat.add_assoc, hget _ (by omega)]; exact r3
  · rw [hc, Nat.add_comm 1, List.cons_append, List.getElem?_cons_succ,
      List.getElem?_append_right (by omega), hlen, Nat.sub_self]
    simp

set_option maxRecDepth 100000 in
/-- C14, as stated, fails: on the 8 x 2 panel of the streaming build (zeroed
pixel buffer, no scratch buffer) `refresh` makes 8 transfer calls, `3 * 2 + 2`,
not `2 + 2 = 4`: address, data and dummy byte of a line go out in three
separate calls. -/
theorem C14_counterexample :
    streamPanel8x2.sharpmem_spi_buffer = none ∧
    (refreshStreaming streamPanel8x2 (fun _ => 0)).map Prod.snd =
      some [[0xC0], [128], [0], [0], [64], [0], [0], [0]] ∧
    (refreshStreaming streamPanel8x2 (fun _ => 0)).map (fun r => r.2.length) ≠
      some (streamPanel8x2.HEIGHT + 2) := by
  decide

set_option maxRecDepth 100000 in
/-- C14 on the 16 x 8 panel of the streaming build, which has no scratch
buffer: 26 calls. -/
theorem C14_streaming_calls_witness :
    streamPanel16x8.sharpmem_spi_buffer = none ∧
    ∃ d1 calls, refreshStreaming streamPanel16x8 (fun _ => 0) = some (d1, calls) ∧
      calls.length = 26 := by
  obtain ⟨d1, calls, h, hl, _⟩ :=
    C14_streaming_calls streamPanel16x8 (List.replicate 16 0) (fun _ => 0)
      (by decide) (by decide) (by decide) (by decide)
  exact ⟨by decide, d1, calls, h, hl⟩

/-! ## The staged frame on byte-aligned panels -/

theorem refresh_frame_aligned (d d1 : Display) (miso : Nat → Nat) (frame spi pix : List Nat)
    (h : refresh d miso = some (d1, frame))
    (hspi : d.sharpmem_spi_buffer = some spi) (hpix : d.sharpmem_buffer = some pix)
    (h8 : 8 ∣ d.WIDTH) (hfit : 2 + 2 * d.HEIGHT + d.WIDTH * d.HEIGHT / 8 < 65536) :
    frame.length = 1 + d.HEIGHT * (d.WIDTH / 8 + 2) + 1 ∧
    frame[0]? = some ((SHARPMEM_BIT_WRITECMD ||| d._sharpmem_vcom) % 256) ∧
    (∀ i, i < d.HEIGHT →
      frame[1 + i * (d.WIDTH / 8 + 2)]? = lineNumberLookup[i + 1]? ∧
      ∀ m, m < d.WIDTH / 8 →
        frame[1 + i * (d.WIDTH / 8 + 2) + 1 + m]? = pix[i * (d.WIDTH / 8) + m]?) := by
  obtain ⟨hlen, hhead, haddr, hdata, _⟩ := refresh_frame d d1 miso frame spi pix h hspi hpix
  have e : 1 + d.WIDTH / 8 + 1 = d.WIDTH / 8 + 2 := by omega
  have htl : transferLength d = 1 + d.HEIGHT * (d.WIDTH / 8 + 2) + 1 := by
    unfold transferLength
    rw [Nat.mod_eq_of_lt hfit, frame_length_of_dvd _ _ h8, e]
  have hoff : ∀ i, lineOffset d.WIDTH i = 1 + i * (d.WIDTH / 8 + 2) := by
    intro i
    rw [lineOffset_of_dvd _ i h8, e]
  rw [htl] at hhead haddr hdata
  refine ⟨by rw [hlen, htl], hhead (by omega), ?_⟩
  intro i hi
  have h1 : (i + 1) * (d.WIDTH / 8 + 2) ≤ d.HEIGHT * (d.WIDTH / 8 + 2) :=
    Nat.mul_le_mul_right _ hi
  rw [Nat.add_mul, Nat.one_mul] at h1
  constructor
  · have := haddr i hi (by rw [hoff]; omega)
    rw [hoff] at this
    exact this
  · intro m hm
    have := hdata i m hi hm (by rw [hoff]; omega)
    rw [hoff] at this
    exact this

theorem ready_pix_length (d : Display) (pix : List Nat) (hr : Ready d)
    (hpix : d.sharpmem_buffer = some pix) : pix.length = d.WIDTH * d.HEIGHT / 8 := by
  have := hr.1
  rw [hpix] at this
  simpa [pixelBufferSize] using this

/-- C18 (amended): for the same pixel buffer, polarity and panel size, on a
panel whose width is a multiple of 8, whose height is at most 255 and whose
frame length `2 + 2 * HEIGHT + WIDTH * HEIGHT / 8` is below 65536, the staged
strategy and the streaming strategy of `refresh` transfer the same number of
bytes, and the staged frame agrees with the concatenation of the streamed
chunks at the header byte, at every line's address byte and at every line's
pixel-data bytes (same values at the same offsets). -/
theorem C18_staged_matches_streaming (d : Display) (m1 m2 : Nat → Nat) (hr : Ready d)
    (h8 : 8 ∣ d.WIDTH) (hH : d.HEIGHT ≤ 255)
    (hfit : 2 + 2 * d.HEIGHT + d.WIDTH * d.HEIGHT / 8 < 65536) :
    ∃ d1 frame d2 calls, refresh d m1 = some (d1, frame) ∧
      refreshStreaming d m2 = some (d2, calls) ∧
      frame.length = calls.flatten.length ∧
      frame[0]? = calls.flatten[0]? ∧
      (∀ i, i < d.HEIGHT →
        frame[1 + i * (d.WIDTH / 8 + 2)]? = calls.flatten[1 + i * (d.WIDTH / 8 + 2)]? ∧
        ∀ m, m < d.WIDTH / 8 →
          frame[1 + i * (d.WIDTH / 8 + 2) + 1 + m]? =
            calls.flatten[1 + i * (d.WIDTH / 8 + 2) + 1 + m]?) := by
  obtain ⟨pix, spi, hpix, hspi⟩ := ready_buffers d hr
  obtain ⟨d1, frame, hf⟩ := refresh_total d m1 hr hH
  obtain ⟨d2, calls, hs⟩ := refreshStreaming_total d m2 hr hH
  obtain ⟨fl, fh, fd⟩ := refresh_frame_aligned d d1 m1 frame spi pix hf hspi hpix h8 hfit
  obtain ⟨_, sl, sh, sd, _⟩ := refreshStreaming_spec d d2 m2 calls pix hs hpix
  refine ⟨d1, frame, d2, calls, hf, hs, by rw [fl, sl], by rw [fh, sh], ?_⟩
  intro i hi
  obtain ⟨fa, fdat⟩ := fd i hi
  obtain ⟨sa, sdat, _⟩ := sd i hi
  exact ⟨by rw [fa, sa], fun m hm => by rw [fdat m hm, sdat m hm]⟩

set_option maxRecDepth 100000 in
/-- C18 on the 16 x 8 panel: both strategies transfer 34 bytes. -/
theorem C18_staged_matches_streaming_witness :
    ∃ d1 frame d2 calls, refresh panel16x8 (fun _ => 0xff) = some (d1, frame) ∧
      refreshStreaming panel16x8 (fun _ => 0) = some (d2, calls) ∧
      frame.length = calls.flatten.length ∧ frame[0]? = calls.flatten[0]? := by
  obtain ⟨d1, frame, d2, calls, h1, h2, hl, hh, _⟩ :=
    C18_staged_matches_streaming panel16x8 (fun _ => 0xff) (fun _ => 0)
      (by decide) (by decide) (by decide) (by decide)
  exact ⟨d1, frame, d2, calls, h1, h2, hl, hh⟩

/-- C18, as stated, fails: on the 2048 x 255 panel (width a multiple of 8) the
staged `refresh` passes `(uint16_t) 65792 = 256` as the length and transfers
256 bytes, while the streaming `refresh` transfers all 65792. -/
theorem C18_counterexample :
    8 ∣ panel2048x255.WIDTH ∧
    ∃ d1 frame d2 calls, refresh panel2048x255 (fun _ => 0) = some (d1, frame) ∧
      refreshStreaming panel2048x255 (fun _ => 0) = some (d2, calls) ∧
      frame.length = 256 ∧ calls.flatten.length = 65792 := by
  have hr : Ready panel2048x255 := begin_ready (construct 2048 255) (fun _ => 0) (fun _ => 0)
  have hs : panel2048x255.sharpmem_spi_buffer =
      some ((List.range 66033).map (fun _ => 0 % 256)) :=
    begin_spi (construct 2048 255) (fun _ => 0) (fun _ => 0)
  have hp : panel2048x255.sharpmem_buffer =
      some ((List.range 65280).map (fun _ => 0 % 256)) :=
    begin_pix (construct 2048 255) (fun _ => 0) (fun _ => 0)
  obtain ⟨d1, frame, hf⟩ := refresh_total panel2048x255 (fun _ => 0) hr (by decide)
  obtain ⟨d2, calls, hst⟩ := refreshStreaming_total panel2048x255 (fun _ => 0) hr (by decide)
  obtain ⟨hlen, _⟩ := refresh_frame _ d1 _ frame _ _ hf hs hp
  obtain ⟨_, sl, _⟩ := refreshStreaming_spec _ d2 _ calls _ hst hp
  have htl : transferLength panel2048x255 = 256 := by decide
  rw [htl] at hlen
  exact ⟨by decide, d1, frame, d2, calls, hf, hst, hlen, sl⟩

/-! ## A pixel in the frame -/

theorem byteIndex_rot0 (d : Display) (x y : Nat) (hrot : d.rotation = 0) (h8 : 8 ∣ d.WIDTH) :
    byteIndex d x y = y * (d.WIDTH / 8) + x / 8 ∧ bitIndex d x y = x % 8 := by
  have hr : rotate d x y = (x, y) := by
    unfold rotate
    rw [hrot]
  constructor
  · rw [byteIndex_of_dvd d x y h8, hr]
  · unfold bitIndex
    rw [hr]

theorem width_rot0 (d : Display) (hrot : d.rotation = 0) :
    _width d = d.WIDTH ∧ _height d = d.HEIGHT := by
  unfold _width _height
  rw [hrot]
  exact ⟨rfl, rfl⟩

/-- C17 (amended): on a panel whose width is a multiple of 8, whose height is
at most 255 and whose frame length is below 65536, at rotation 0 and for every
in-bounds `(x, y)`: in the frame `refresh` transfers, bit `x mod 8` (least
significant bit = 0) of data byte `x / 8` of line `y`, the byte at index
`1 + y * (WIDTH / 8 + 2) + 1 + x / 8`, is what `getPixel (x, y)` returns; after
`drawPixel (x, y, c)` that bit of the next frame is set exactly when `c` is
nonzero, and the data bytes of every other line are the same as in the frame
without the write. -/
theorem C17_pixel_in_frame (d : Display) (miso : Nat → Nat) (x y color : Nat)
    (hr : Ready d) (h8 : 8 ∣ d.WIDTH) (hH : d.HEIGHT ≤ 255)
    (hfit : 2 + 2 * d.HEIGHT + d.WIDTH * d.HEIGHT / 8 < 65536)
    (hrot : d.rotation = 0) (hx : x < d.WIDTH) (hy : y < d.HEIGHT) :
    ∃ d1 frame0 b0 d0 d2 frame b,
      refresh d miso = some (d1, frame0) ∧
      frame0[1 + y * (d.WIDTH / 8 + 2) + 1 + x / 8]? = some b0 ∧
      getPixel d x y = some (if b0.testBit (x % 8) then 1 else 0) ∧
      drawPixel d (x : Int) (y : Int) color = some d0 ∧
      refresh d0 miso = some (d2, frame) ∧
      frame[1 + y * (d.WIDTH / 8 + 2) + 1 + x / 8]? = some b ∧
      b.testBit (x % 8) = decide (color ≠ 0) ∧
      (∀ j m, j < d.HEIGHT → j ≠ y → m < d.WIDTH / 8 →
        frame[1 + j * (d.WIDTH / 8 + 2) + 1 + m]? =
          frame0[1 + j * (d.WIDTH / 8 + 2) + 1 + m]?) := by
  obtain ⟨pix, spi, hpix, hspi⟩ := ready_buffers d hr
  have hplen := ready_pix_length d pix hr hpix
  obtain ⟨hw, hh⟩ := width_rot0 d hrot
  have hx' : x < _width d := by rw [hw]; exact hx
  have hy' : y < _height d := by rw [hh]; exact hy
  obtain ⟨hbi, hti⟩ := byteIndex_rot0 d x y hrot h8
  have h8' : 8 ∣ d.WIDTH * d.HEIGHT := Dvd.dvd.mul_right h8 _
  have hlt : byteIndex d x y < pix.length := by
    rw [hplen]; exact byteIndex_lt d x y hx' hy' h8'
  have hm : x / 8 < d.WIDTH / 8 := by
    obtain ⟨c, hc⟩ := h8
    rw [hc] at hx ⊢
    omega
  have hb0 : pix[byteIndex d x y]? = some pix[byteIndex d x y] := List.getElem?_eq_getElem hlt
  -- the frame before the write
  obtain ⟨d1, frame0, hf0⟩ := refresh_total d miso hr hH
  obtain ⟨_, _, fd0⟩ := refresh_frame_aligned d d1 miso frame0 spi pix hf0 hspi hpix h8 hfit
  -- the write
  have hdraw := drawPixel_inbounds d pix x y color _ hpix hx' hy' hb0
  obtain ⟨d0, hd0⟩ : ∃ d0, d0 = { d with
      sharpmem_buffer :=
        some (pix.set (byteIndex d x y)
          (storedByte pix[byteIndex d x y] (bitIndex d x y) color)) } := ⟨_, rfl⟩
  rw [← hd0] at hdraw
  have hr0 : Ready d0 := (step_spec d d0 (Op.drawPixel x y color) hdraw).2.2.1 hr
  have hW0 : d0.WIDTH = d.WIDTH := by rw [hd0]
  have hH0 : d0.HEIGHT = d.HEIGHT := by rw [hd0]
  have hpix0 : d0.sharpmem_buffer = some (pix.set (byteIndex d x y)
      (storedByte pix[byteIndex d x y] (bitIndex d x y) color)) := by rw [hd0]
  have hspi0 : d0.sharpmem_spi_buffer = some spi := by rw [hd0]; exact hspi
  obtain ⟨d2, frame, hf⟩ := refresh_total d0 miso hr0 (by rw [hH0]; exact hH)
  obtain ⟨_, _, fd⟩ := refresh_frame_aligned d0 d2 miso frame spi _ hf hspi0 hpix0
    (by rw [hW0]; exact h8) (by rw [hW0, hH0]; exact hfit)
  rw [hW0, hH0] at fd
  refine ⟨d1, frame0, pix[byteIndex d x y], d0, d2, frame,
    storedByte pix[byteIndex d x y] (bitIndex d x y) color, hf0, ?_, ?_, hdraw, hf, ?_, ?_, ?_⟩
  · rw [(fd0 y hy).2 _ hm, ← hbi, hb0]
  · rw [getPixel_inbounds d pix x y _ hpix hx' hy' hb0, hti]
  · rw [(fd y hy).2 _ hm, ← hbi, List.getElem?_set_self hlt]
  · rw [testBit_storedByte _ _ _ _ (bitIndex_lt d x y) (by rw [← hti]; exact bitIndex_lt d x y),
      hti, if_pos rfl]
  · intro j m hj hjy hm'
    rw [(fd j hj).2 m hm', (fd0 j hj).2 m hm']
    apply List.getElem?_set_ne
    intro heq
    rw [hbi] at heq
    exact hjy (div_mul_unique (d.WIDTH / 8) _ _ _ _ hm hm' heq).1.symm

set_option maxRecDepth 100000 in
/-- C17 on the 8 x 2 panel: pixel `(3, 1)` set, then refreshed. -/
theorem C17_pixel_in_frame_witness :
    ∃ d0 d2 frame b, drawPixel panel8x2 3 1 1 = some d0 ∧
      refresh d0 (fun _ => 0) = some (d2, frame) ∧
      frame[1 + 1 * (8 / 8 + 2) + 1 + 3 / 8]? = some b ∧ b.testBit (3 % 8) = true := by
  obtain ⟨_, _, _, d0, d2, frame, b, _, _, _, h1, h2, h3, h4, _⟩ :=
    C17_pixel_in_frame panel8x2 (fun _ => 0) 3 1 1 (by decide) (by decide) (by decide)
      (by decide) (by decide) (by decide) (by decide)
  exact ⟨d0, d2, frame, b, h1, h2, h3, by simpa using h4⟩

/-- C17, as stated, fails: on the 2048 x 255 panel (width a multiple of 8,
rotation 0) `refresh` transfers `(uint16_t) 65792 = 256` bytes, so data byte 0
of line 1, at index `1 + 1 * (2048 / 8 + 2) + 1 = 260`, is not in the frame and
the in-bounds pixel `(0, 1)` does not appear in it. -/
theorem C17_counterexample :
    (8 ∣ panel2048x255.WIDTH ∧ panel2048x255.rotation = 0 ∧
      0 < _width panel2048x255 ∧ 1 < _height panel2048x255) ∧
    ∃ d1 frame, refresh panel2048x255 (fun _ => 0) = some (d1, frame) ∧
      frame.length = 256 ∧ frame[1 + 1 * (2048 / 8 + 2) + 1 + 0 / 8]? = none := by
  have hr : Ready panel2048x255 := begin_ready (construct 2048 255) (fun _ => 0) (fun _ => 0)
  have hs : panel2048x255.sharpmem_spi_buffer =
      some ((List.range 66033).map (fun _ => 0 % 256)) :=
    begin_spi (construct 2048 255) (fun _ => 0) (fun _ => 0)
  have hp : panel2048x255.sharpmem_buffer =
      some ((List.range 65280).map (fun _ => 0 % 256)) :=
    begin_pix (construct 2048 255) (fun _ => 0) (fun _ => 0)
  obtain ⟨d1, frame, hf⟩ := refresh_total panel2048x255 (fun _ => 0) hr (by decide)
  obtain ⟨hlen, _⟩ := refresh_frame _ d1 _ frame _ _ hf hs hp
  have htl : transferLength panel2048x255 = 256 := by decide
  rw [htl] at hlen
  exact ⟨by decide, d1, frame, hf, hlen, List.getElem?_eq_none (by rw [hlen]; decide)⟩

/-! ## Safety of the table and buffer accesses -/

/-- C19: for every panel with height at most 255 (in the state `begin` sets
up), the loop of `refresh` reads `lineNumberLookup` at index `i + 1` for the
lines `i < HEIGHT` only, that is at indices 1..HEIGHT, all inside the 256-entry
table, so `refresh` runs without an out-of-table read; the address byte of
line `i` in what is sent is `lineNumberLookup[i + 1]`, and the address bytes of
any two distinct lines are different, in the staged frame and in the streamed
calls alike. -/
theorem C19_table_reads (d : Display) (miso : Nat → Nat) (hr : Ready d)
    (hH : d.HEIGHT ≤ 255) :
    (∀ i, i < d.HEIGHT → 1 ≤ i + 1 ∧ i + 1 ≤ d.HEIGHT ∧ i + 1 < lineNumberLookup.length ∧
      ∃ a, lineNumberLookup[i + 1]? = some a) ∧
    (∃ d1 frame, refresh d miso = some (d1, frame) ∧
      (∀ i a, i < d.HEIGHT → frame[lineOffset d.WIDTH i]? = some a →
        lineNumberLookup[i + 1]? = some a) ∧
      (∀ i j a b, i < d.HEIGHT → j < d.HEIGHT → i ≠ j →
        frame[lineOffset d.WIDTH i]? = some a → frame[lineOffset d.WIDTH j]? = some b →
          a ≠ b)) ∧
    (∃ d2 calls, refreshStreaming d miso = some (d2, calls) ∧
      (∀ i a, i < d.HEIGHT → calls[1 + 3 * i]? = some [a] →
        lineNumberLookup[i + 1]? = some a) ∧
      (∀ i j a b, i < d.HEIGHT → j < d.HEIGHT → i ≠ j →
        calls[1 + 3 * i]? = some [a] → calls[1 + 3 * j]? = some [b] → a ≠ b)) := by
  obtain ⟨pix, spi, hpix, hspi⟩ := ready_buffers d hr
  have hinj : ∀ i j a, i < d.HEIGHT → j < d.HEIGHT → lineNumberLookup[i + 1]? = some a →
      lineNumberLookup[j + 1]? = some a → i = j := by
    intro i j a hi hj h1 h2
    have := lineNumberLookup_injective (i + 1) (j + 1) a (by omega) (by omega) h1 h2
    omega
  refine ⟨?_, ?_, ?_⟩
  · intro i hi
    have hlt : i + 1 < lineNumberLookup.length := by rw [lineNumberLookup_length]; omega
    exact ⟨by omega, by omega, hlt, _, List.getElem?_eq_getElem hlt⟩
  · obtain ⟨d1, frame, hf⟩ := refresh_total d miso hr hH
    obtain ⟨hlen, _, haddr, _, _⟩ := refresh_frame d d1 miso frame spi pix hf hspi hpix
    have hval : ∀ i a, i < d.HEIGHT → frame[lineOffset d.WIDTH i]? = some a →
        lineNumberLookup[i + 1]? = some a := by
      intro i a hi ha
      have hk : lineOffset d.WIDTH i < transferLength d := by
        rw [← hlen]
        exact (List.getElem?_eq_some.mp ha).1
      rw [← haddr i hi hk, ha]
    refine ⟨d1, frame, hf, hval, ?_⟩
    intro i j a b hi hj hij ha hb hab
    subst hab
    exact hij (hinj i j a hi hj (hval i a hi ha) (hval j a hj hb))
  · obtain ⟨d2, calls, hs⟩ := refreshStreaming_total d miso hr hH
    obtain ⟨pix', pix1, chunks, hp, hloop, hc, _⟩ := refreshStreaming_some d d2 miso calls hs
    obtain ⟨hclen, _, _, _⟩ := streamLoop_spec _ _ _ _ _ _ _ _ hloop
    have hcalls := streamLoop_calls _ _ _ _ _ _ _ _ hloop
    have hval : ∀ i a, i < d.HEIGHT → calls[1 + 3 * i]? = some [a] →
        lineNumberLookup[i + 1]? = some a := by
      intro i a hi ha
      obtain ⟨⟨a', ha', r1⟩, _, _⟩ := hcalls i hi
      rw [Nat.zero_add] at ha'
      rw [hc, Nat.add_comm 1, List.cons_append, List.getElem?_cons_succ,
        List.getElem?_append_left (by omega), r1] at ha
      have : a' = a := by simpa using ha
      rw [← this]
      exact ha'
    refine ⟨d2, calls, hs, hval, ?_⟩
    intro i j a b hi hj hij ha hb hab
    subst hab
    exact hij (hinj i j a hi hj (hval i a hi ha) (hval j a hj hb))

set_option maxRecDepth 100000 in
/-- C19 on the 8 x 2 panel: the two address bytes sent are 128 and 64. -/
theorem C19_table_reads_witness :
    ∃ d1 frame, refresh panel8x2 (fun _ => 0) = some (d1, frame) ∧
      frame[lineOffset 8 0]? = some 128 ∧ frame[lineOffset 8 1]? = some 64 ∧
      (128 : Nat) ≠ 64 := by
  obtain ⟨_, ⟨d1, frame, hf, _, hne⟩, _⟩ :=
    C19_table_reads panel8x2 (fun _ => 0) (by decide) (by decide)
  have hfr : (refresh panel8x2 (fun _ => 0)).map Prod.snd =
      some [0xC0, 128, 0, 0, 64, 0, 0, 0] := by decide
  rw [hf] at hfr
  have hfe : frame = [0xC0, 128, 0, 0, 64, 0, 0, 0] := by simpa using hfr
  have h0 : frame[lineOffset 8 0]? = some 128 := by rw [hfe]; decide
  have h1 : frame[lineOffset 8 1]? = some 64 := by rw [hfe]; decide
  exact ⟨d1, frame, hf, h0, h1, hne 0 1 128 64 (by decide) (by decide) (by decide) h0 h1⟩

end Adafruit_SharpMem
